import Mathlib

/-!
Verification development for the SOFUN-Tracker spreadsheet ingestion
pipeline (`SofunDataProcessor.processExcelFile` and its helpers in the
data-processor file, plus the validation utilities and constants of
`js/advanced-audit.js`).

The JavaScript source is shallowly embedded: a spreadsheet cell is a
`Value` (string, number, or empty/undefined), a sheet is a list of rows,
and a workbook is an association list from sheet names to sheets.  The
pipeline is a pure function of the workbook together with three explicit
oracles for the effects the source performs:
  * `jsParse` stands for the platform `new Date(string)` fallback parser
    (only reached when none of the explicit date patterns match);
  * `now` stands for `new Date()` (stored into `lastUpdated`);
  * `gen` stands for the value produced by `generateRandomOrdDate()`
    (the source formats it as an ISO `YYYY-MM-DD` string; the embedding
    keeps it as a calendar date, which is the only content that matters).
JavaScript exceptions inside the row loop (setting a property of
`undefined`) are modelled with `Except String`; the surrounding
`try/catch` of `processExcelFile` turns an error into a `success = false`
result, exactly as the source does.
-/

/-- A spreadsheet cell as handed over by the sheet decoder: a string, a
number, or an empty/undefined cell. -/
inductive Value where
  | str (s : String)
  | num (n : Int)
  | empty
deriving DecidableEq, Repr

namespace Value

/-- JavaScript truthiness of a cell value: non-empty strings and non-zero
numbers are truthy; `undefined` is falsy. -/
def truthy : Value → Bool
  | .str s => s ≠ ""
  | .num n => n ≠ 0
  | .empty => false

/-- JavaScript `cell.toString()` for the values the pipeline meets (the
source only calls it behind a truthiness or optional-chaining guard, so
the `empty` case is never observed; it is mapped to `""`). -/
def toStr : Value → String
  | .str s => s
  | .num n => toString n
  | .empty => ""

end Value

/- All string manipulation is implemented over `List Char` by structural
recursion (the embedding never calls the run-time-optimized `String`
loops), so every definition evaluates inside the kernel. -/

/-- JavaScript `s.trim()`: strip leading and trailing whitespace. -/
def jsTrim (s : String) : String :=
  (((s.toList.dropWhile Char.isWhitespace).reverse.dropWhile
      Char.isWhitespace).reverse).asString

/-- JavaScript `s.toUpperCase()` for the ASCII text the pipeline meets. -/
def jsUpper (s : String) : String :=
  (s.toList.map Char.toUpper).asString

/-- JavaScript `s.toLowerCase()` for the ASCII text the pipeline meets. -/
def jsLower (s : String) : String :=
  (s.toList.map Char.toLower).asString

/-- JavaScript `s.length` (all our text is one code unit per character). -/
def strLen (s : String) : Nat :=
  s.toList.length

/-- `s.substring(0, n)` / `take`. -/
def strTake (s : String) (n : Nat) : String :=
  (s.toList.take n).asString

/-- Drop the first `n` characters. -/
def strDrop (s : String) (n : Nat) : String :=
  (s.toList.drop n).asString

/-- Contiguous-sublist test on character lists. -/
def listInfix (pat : List Char) : List Char → Bool
  | [] => pat.isEmpty
  | c :: cs => pat.isPrefixOf (c :: cs) ∨ listInfix pat cs

/-- Substring containment, JavaScript `s.includes(pat)`. -/
def strContains (s pat : String) : Bool :=
  listInfix pat.toList s.toList

/-- Membership of a string in a list of strings (`Array.includes`). -/
def listHas (l : List String) (s : String) : Bool :=
  l.any (fun x => x = s)

/-- Split a character list on a separator character (the single-character
`String.split` uses the source's regexes need). -/
def splitOnChar (sep : Char) : List Char → List (List Char)
  | [] => [[]]
  | c :: cs =>
    let r := splitOnChar sep cs
    if c = sep then [] :: r
    else
      match r with
      | hd :: tl => (c :: hd) :: tl
      | [] => [[c]]

/-- The numeric value of a digit string (`parseInt` on text that is
already known to be all digits). -/
def digitsToNat (l : List Char) : Nat :=
  l.foldl (fun acc c => acc * 10 + (c.toNat - 48)) 0

/-- The cell at index `i` of a row (`row[i]`, `undefined` past the end). -/
def cellAt (row : List Value) (i : Nat) : Value :=
  row.getD i .empty

/-- JavaScript `row[i]?.toString().trim()`, with `undefined` collapsed to
the empty string (the source only ever tests the result for truthiness or
uses it as text, and `undefined` is falsy). -/
def fieldStr (row : List Value) (i : Nat) : String :=
  jsTrim (cellAt row i).toStr

/-- A calendar date (year, month, day).  The source stores JavaScript
`Date` objects anchored at UTC midnight; only the calendar components are
ever compared or exported, so the embedding keeps exactly those. -/
structure NDate where
  y : Nat
  m : Nat
  d : Nat
deriving DecidableEq, Repr

/-- Strict calendar order on dates (the `date < minDate` comparison of
`validateDateInput`). -/
def ndateLt (a b : NDate) : Bool :=
  a.y < b.y ∨ (a.y = b.y ∧ (a.m < b.m ∨ (a.m = b.m ∧ a.d < b.d)))

/-- Gregorian leap-year rule, as implemented by JavaScript `Date`. -/
def isLeapYear (y : Nat) : Bool :=
  (y % 4 = 0 ∧ y % 100 ≠ 0) ∨ y % 400 = 0

/-- Days in a month, for `new Date("YYYY-MM-DD")` validity. -/
def daysInMonth (y m : Nat) : Nat :=
  if m = 2 then (if isLeapYear y then 29 else 28)
  else if m = 4 ∨ m = 6 ∨ m = 9 ∨ m = 11 then 30
  else 31

/-- JavaScript `new Date("YYYY-MM-DD")` on numeric components: a valid
`Date` exactly when the components name a real calendar date, `NaN`
(here `none`) otherwise. -/
def mkDate (y m d : Nat) : Option NDate :=
  if 1 ≤ m ∧ m ≤ 12 ∧ 1 ≤ d ∧ d ≤ daysInMonth y m then some ⟨y, m, d⟩ else none

/-- True when every character of `s` is an ASCII digit and `s` is
non-empty (one regex `\d{a,b}` group, with the length checked apart). -/
def allDigits (s : String) : Bool :=
  s ≠ "" ∧ s.toList.all Char.isDigit

/-- The `DD-MM-YY(YY)` / `DD/MM/YY(YY)` branches of `parseDate`: the
regex `^(\d{1,2})SEP(\d{1,2})SEP(\d{2,4})$`, a 2-digit year mapped to
`20xx`, then `new Date` validity.  A 3-digit year never yields a valid
`Date` and falls through, like the source. -/
def parseSepDMY (sep : Char) (s : String) : Option NDate :=
  match splitOnChar sep s.toList with
  | [ds, ms, ys] =>
    if allDigits ds.asString ∧ ds.length ≤ 2 ∧ allDigits ms.asString ∧ ms.length ≤ 2 ∧
        allDigits ys.asString ∧ 2 ≤ ys.length ∧ ys.length ≤ 4 then
      let fy := if ys.length = 2 then '2' :: '0' :: ys else ys
      if fy.length = 4 then
        mkDate (digitsToNat fy) (digitsToNat ms) (digitsToNat ds)
      else none
    else none
  | _ => none

/-- The `YYYY-MM-DD` branch of `parseDate`: regex
`^(\d{4})-(\d{1,2})-(\d{1,2})$` then `new Date` validity. -/
def parseIsoYMD (s : String) : Option NDate :=
  match splitOnChar '-' s.toList with
  | [ys, ms, ds] =>
    if allDigits ys.asString ∧ ys.length = 4 ∧ allDigits ms.asString ∧ ms.length ≤ 2 ∧
        allDigits ds.asString ∧ ds.length ≤ 2 then
      mkDate (digitsToNat ys) (digitsToNat ms) (digitsToNat ds)
    else none
  | _ => none

/-- The compact `DDMMYY` branch of `parseDate`: regex
`^(\d{2})(\d{2})(\d{2})$`, 2-digit year `< 50` mapped to `20xx` and
`>= 50` to `19xx`, then `new Date` validity. -/
def parseCompactDDMMYY (s : String) : Option NDate :=
  if strLen s = 6 ∧ allDigits s then
    let dd := s.toList.take 2
    let mm := (s.toList.drop 2).take 2
    let yy := s.toList.drop 4
    let fy := if digitsToNat yy < 50 then 2000 + digitsToNat yy
              else 1900 + digitsToNat yy
    mkDate fy (digitsToNat mm) (digitsToNat dd)
  else none

/-- `SofunDataProcessor.parseDate`.  The source opens with
`if (!dateStr || typeof dateStr !== 'string') return null;`, so every
non-string input (numbers included) yields `null`; the numeric
serial/DDMMYY branch that follows in the source is unreachable dead code
and is therefore absent here.  For strings it tries, in order, the
`DD-MM-YY(YY)`, `DD/MM/YY(YY)`, `YYYY-MM-DD` and compact `DDMMYY`
patterns (each skipped when the resulting `Date` is invalid) and finally
the platform date parser `jsParse` (`new Date(cleanDate)`). -/
def parseDate (jsParse : String → Option NDate) : Value → Option NDate
  | .str s =>
    let cleanDate := jsTrim s
    if cleanDate = "" then none
    else
      match parseSepDMY '-' cleanDate with
      | some d => some d
      | none =>
        match parseSepDMY '/' cleanDate with
        | some d => some d
        | none =>
          match parseIsoYMD cleanDate with
          | some d => some d
          | none =>
            match parseCompactDDMMYY cleanDate with
            | some d => some d
            | none => jsParse cleanDate
  | _ => none

/-- A platform date parser that recognizes nothing beyond the explicit
patterns; used to instantiate `jsParse` in concrete runs. -/
def jsParseNone : String → Option NDate := fun _ => none

/-- Constant `VALID_PLATOONS` of `js/advanced-audit.js`. -/
def VALID_PLATOONS : List String :=
  ["COY HQ", "Platoon 1", "Platoon 2", "Platoon 3", "Platoon 4",
   "Support Platoon", "Admin", "Medical", "Signals", "Transport"]

/-- Constant `MEDICAL_STATUS_OPTIONS` of `js/advanced-audit.js`. -/
def MEDICAL_STATUS_OPTIONS : List String :=
  ["Fit", "Light Duty", "Excused IPPT", "Medical Board"]

/-- `isValidPlatoon` of `js/advanced-audit.js`:
`VALID_PLATOONS.includes(platoonName)`. -/
def isValidPlatoon (platoonName : String) : Bool :=
  listHas VALID_PLATOONS platoonName

/-- True for the characters `sanitizePersonnelName` keeps (everything but
`<`, `>`, double quote and apostrophe; 34 and 39 are those quote
codepoints). -/
def keptNameChar (c : Char) : Bool :=
  ¬ (c = '<' ∨ c = '>' ∨ c.toNat = 34 ∨ c.toNat = 39)

/-- `sanitizePersonnelName` of `js/advanced-audit.js`: trim, strip the
HTML-sensitive characters, cap at 100 characters, upper-case. -/
def sanitizePersonnelName (name : String) : String :=
  jsUpper ((((jsTrim name).toList.filter keptNameChar).take 100).asString)

/-- `validateDateInput(date, true)` as the post-pass applies it to an
ORD date that is already a `Date` object: the date is accepted unless it
lies before the fixed minimum `2020-01-01` (future dates are allowed
because `allowFuture` is true on this call site). -/
def validateDateInputAllowFuture (d : NDate) : Bool :=
  ! ndateLt d ⟨2020, 1, 1⟩

/-- Strip all whitespace and upper-case, the
`replace(/\s+/g, '').toUpperCase()` normalization used for support-unit
section headers. -/
def squashUpper (s : String) : String :=
  jsUpper ((s.toList.filter (fun c => ! c.isWhitespace)).asString)

/-- The support-unit list the row loop of `processExcelFile` matches
section headers against. -/
def supportUnits : List String :=
  ["COY HQ", "Support Platoon", "Admin", "Medical", "Signals", "Transport"]

/-- The strict `^PLATOON\s*(\d)$` (case-insensitive) match: the trailing
digit when the whole (already trimmed) label is `PLATOON`, optional
whitespace, one digit. -/
def strictPlatoonDigit (raw : String) : Option Char :=
  let u := (jsUpper raw).toList
  if ("PLATOON".toList).isPrefixOf u then
    match (u.drop 7).dropWhile Char.isWhitespace with
    | [c] => if c.isDigit then some c else none
    | _ => none
  else none

/-- Hardened section-header detection of the `processExcelFile` row loop:
the strict `PLATOON <digit>` pattern first, else an exact
whitespace/case-insensitive match against the support-unit list; anything
else is not a section header. -/
def matchSectionHeader (raw : String) : Option String :=
  if raw = "" then none
  else
    match strictPlatoonDigit raw with
    | some c => some ("Platoon " ++ [c].asString)
    | none => supportUnits.find? (fun u => squashUpper raw = squashUpper u)

/-- True when the label contains one of the unit keywords `PLATOON`,
`COY`, `HQ` (upper-cased), the source's test for an ambiguous header. -/
def unitKeywordLike (raw : String) : Bool :=
  strContains (jsUpper raw) "PLATOON" ∨ strContains (jsUpper raw) "COY" ∨
    strContains (jsUpper raw) "HQ"

/-- `validatePlatoon` of the data processor (the free-text platoon
resolver): exact match against its own valid list first, then the
keyword heuristics, then a first partial match, and `"Unassigned"` as
the final fallback. -/
def validatePlatoon (platoon : String) : String :=
  if jsTrim platoon = "" then "Unassigned"
  else
    let normalizedPlatoon := jsTrim platoon
    let validPlatoons : List String :=
      ["Platoon 1", "Platoon 2", "Platoon 3", "Platoon 4",
       "COY HQ", "Support Platoon", "Admin", "Medical",
       "Signals", "Transport", "Unassigned"]
    if listHas validPlatoons normalizedPlatoon then normalizedPlatoon
    else
      let lowerPlatoon := jsLower normalizedPlatoon
      if strContains lowerPlatoon "coy" ∨ strContains lowerPlatoon "hq" ∨
          strContains lowerPlatoon "headquarters" then "COY HQ"
      else if strContains lowerPlatoon "platoon" ∨ strContains lowerPlatoon "plt" then
        if strContains lowerPlatoon "1" ∨ strContains lowerPlatoon "one" then "Platoon 1"
        else if strContains lowerPlatoon "2" ∨ strContains lowerPlatoon "two" then "Platoon 2"
        else if strContains lowerPlatoon "3" ∨ strContains lowerPlatoon "three" then "Platoon 3"
        else if strContains lowerPlatoon "4" ∨ strContains lowerPlatoon "four" then "Platoon 4"
        else "Platoon 1"
      else if strContains lowerPlatoon "support" then "Support Platoon"
      else if strContains lowerPlatoon "admin" then "Admin"
      else if strContains lowerPlatoon "medical" ∨ strContains lowerPlatoon "med" then "Medical"
      else if strContains lowerPlatoon "signal" then "Signals"
      else if strContains lowerPlatoon "transport" ∨ strContains lowerPlatoon "trans" then "Transport"
      else
        match validPlatoons.find? (fun valid =>
            strContains (jsLower valid) lowerPlatoon ∨
              strContains lowerPlatoon (jsLower valid)) with
        | some valid => valid
        | none => "Unassigned"

/-- The NSF phase-one (`y1`) assessment block: three result slots with a
date per slot, all created empty. -/
structure Y1Block where
  ippt : String
  ipptDate : Option NDate
  voc : String
  vocDate : Option NDate
  atp : String
  atpDate : Option NDate
deriving DecidableEq, Repr

/-- The NSF phase-two (`y2`) assessment block: three result slots (the
third is the range/marksmanship slot) with a date per slot. -/
structure Y2Block where
  ippt : String
  ipptDate : Option NDate
  voc : String
  vocDate : Option NDate
  range : String
  rangeDate : Option NDate
deriving DecidableEq, Repr

/-- The Regular work-year assessment block: four result slots with a date
per slot. -/
structure WorkYearBlock where
  ippt : String
  ipptDate : Option NDate
  voc : String
  vocDate : Option NDate
  atp : String
  atpDate : Option NDate
  cs : String
  csDate : Option NDate
deriving DecidableEq, Repr

/-- The empty `y1` block a new NSF record starts with. -/
def emptyY1 : Y1Block := ⟨"", none, "", none, "", none⟩

/-- The empty `y2` block a new NSF record starts with. -/
def emptyY2 : Y2Block := ⟨"", none, "", none, "", none⟩

/-- The empty `workYear` block a new Regular record starts with. -/
def emptyWY : WorkYearBlock := ⟨"", none, "", none, "", none, "", none⟩

/-- A personnel record as built by `processExcelFile`.  The three
assessment blocks are optional because the source only attaches the
blocks matching the creation-time category; assigning into an absent
block is the `TypeError` the `Except` layer models.  `y1WindowEndDate`
and `y2WindowEndDate` collapse the JavaScript distinction between an
absent property and `null` into `none` (the source never distinguishes
the two for these scalar fields). -/
structure Person where
  name : String
  category : String
  platoon : String
  unit : String
  rank : String
  pes : String
  lastUpdated : NDate
  ordDate : Option NDate
  isORD : Bool
  medicalStatus : String
  remedialTraining : List String
  y1 : Option Y1Block
  y2 : Option Y2Block
  workYear : Option WorkYearBlock
  y1WindowEndDate : Option NDate
  y2WindowEndDate : Option NDate
deriving DecidableEq, Repr

/-- Lookup in an insertion-ordered association list (JavaScript
`Map.get` / `Map.has`). -/
def mapLookup {α : Type} : List (String × α) → String → Option α
  | [], _ => none
  | (k', v) :: rest, k => if k' = k then some v else mapLookup rest k

/-- JavaScript `Map.set`: replace the value in place when the key is
present, append otherwise. -/
def mapSet {α : Type} : List (String × α) → String → α → List (String × α)
  | [], k, v => [(k, v)]
  | (k', v') :: rest, k, v =>
    if k' = k then (k, v) :: rest else (k', v') :: mapSet rest k v

/-- The three name-keyed lookup tables pre-extracted from the `VOC`
sheet: ORD dates, Y1 window dates and Y2 window dates.  A key can map to
`none` when the source stored a failed parse (`Map.has` is still true
then, faithfully to the source). -/
structure OrdMaps where
  ord : List (String × Option NDate)
  y1w : List (String × Option NDate)
  y2w : List (String × Option NDate)
deriving Repr

/-- One data-start-row heuristic step: a row that looks like a data row
(length over 2, truthy rank in column B and name in column C, name
longer than 2, neither cell containing the header words). -/
def rowLooksLikeData (row : List Value) : Bool :=
  row.length > 2 ∧
    (let rank := fieldStr row 1
     let name := fieldStr row 2
     rank ≠ "" ∧ name ≠ "" ∧ strLen rank > 0 ∧ strLen name > 2 ∧
       ! strContains (jsUpper rank) "RANK" ∧ ! strContains (jsUpper name) "NAME")

/-- The data-start-row scan shared by the primary and `VOC` sheets: the
first of the first ten rows that looks like a data row, defaulting to
index 4. -/
def dataStartRowOf (rawData : List (List Value)) : Nat :=
  ((rawData.take 10).findIdx? rowLooksLikeData).getD 4

/-- One row of the `VOC` pre-scan: record the Y1 window (column F), ORD
date (column G) and Y2 window (also column G) for the row's name, each
only when the raw cell is truthy. -/
def vocRowStep (jsParse : String → Option NDate) (maps : OrdMaps)
    (row : List Value) : OrdMaps :=
  let name := fieldStr row 2
  if name ≠ "" then
    let nameKey := sanitizePersonnelName name
    let y1WindowRaw := cellAt row 5
    let ordRaw := cellAt row 6
    let y2WindowRaw := cellAt row 6
    let maps :=
      if y1WindowRaw.truthy then
        { maps with y1w := mapSet maps.y1w nameKey (parseDate jsParse y1WindowRaw) }
      else maps
    let maps :=
      if ordRaw.truthy then
        { maps with ord := mapSet maps.ord nameKey (parseDate jsParse ordRaw) }
      else maps
    if y2WindowRaw.truthy then
      { maps with y2w := mapSet maps.y2w nameKey (parseDate jsParse y2WindowRaw) }
    else maps
  else maps

/-- Find the sheet whose trimmed, lower-cased name matches. -/
def findSheetNamed (target : String) (sheets : List (String × List (List Value))) :
    Option (List (List Value)) :=
  (sheets.find? (fun s => jsLower (jsTrim s.1) = target)).map (fun s => s.2)

/-- The `VOC` pre-scan of `processExcelFile`: empty maps when no `VOC`
sheet exists, else a fold of `vocRowStep` from that sheet's data start
row. -/
def vocScan (jsParse : String → Option NDate)
    (sheets : List (String × List (List Value))) : OrdMaps :=
  match findSheetNamed "voc" sheets with
  | none => ⟨[], [], []⟩
  | some vocData =>
    (vocData.drop (dataStartRowOf vocData)).foldl (vocRowStep jsParse) ⟨[], [], []⟩

/-- Classification of one row of the primary sheet, as the row loop of
`processExcelFile` decides it: blank, a strict section header, an
ambiguous unit-keyword label (warned about and skipped), noise (missing
rank or name, warned about and skipped), or a data row. -/
inductive RowClass where
  | blank
  | header (unit : String)
  | ambiguous (raw : String)
  | noise
  | data (rank name : String)
deriving DecidableEq, Repr

/-- True when the row is absent, empty, or every cell is falsy or
whitespace-only. -/
def isBlankRow (row : List Value) : Bool :=
  row.isEmpty ∨ row.all (fun cell => ! cell.truthy ∨ jsTrim cell.toStr = "")

/-- The row classifier implicit in the `processExcelFile` row loop,
in the source's decision order. -/
def classifyRow (row : List Value) : RowClass :=
  if isBlankRow row then .blank
  else
    let raw := fieldStr row 0
    match matchSectionHeader raw with
    | some u => .header u
    | none =>
      if raw ≠ "" ∧ unitKeywordLike raw then .ambiguous raw
      else
        let rank := fieldStr row 1
        let name := fieldStr row 2
        if rank = "" ∨ name = "" then .noise else .data rank name

/-- The ten result columns (F to O) a data row carries. -/
structure ResultCols where
  y1Ippt : String
  y1Voc : String
  y1Atp : String
  y2Ippt : String
  y2Voc : String
  y2Range : String
  workYearIppt : String
  workYearVoc : String
  workYearAtp : String
  workYearCs : String
deriving DecidableEq, Repr

/-- Extract the ten result columns of a data row. -/
def extractCols (row : List Value) : ResultCols :=
  { y1Ippt := fieldStr row 5, y1Voc := fieldStr row 6, y1Atp := fieldStr row 7,
    y2Ippt := fieldStr row 8, y2Voc := fieldStr row 9, y2Range := fieldStr row 10,
    workYearIppt := fieldStr row 11, workYearVoc := fieldStr row 12,
    workYearAtp := fieldStr row 13, workYearCs := fieldStr row 14 }

/-- The guard every assessment-slot write sits behind: the incoming text
is truthy and is neither `MISSING` nor `NA` upper-cased. -/
def keepResult (s : String) : Bool :=
  s ≠ "" ∧ jsUpper s ≠ "MISSING" ∧ jsUpper s ≠ "NA"

/-- The `TypeError` message raised when the source assigns a property of
an absent assessment block. -/
def tyErrMsg (fieldName : String) : String :=
  "TypeError: Cannot set properties of undefined (setting " ++ fieldName ++ ")"

/-- Error-propagating sequencing for the slot writes. -/
def exThen (x : Except String Person) (f : Person → Except String Person) :
    Except String Person :=
  match x with
  | .error e => .error e
  | .ok p => f p

/-- Assign `person.workYear.FIELD = v`, a `TypeError` when the block is
absent. -/
def setWY (fieldName : String) (f : WorkYearBlock → WorkYearBlock) (p : Person) :
    Except String Person :=
  match p.workYear with
  | some w => .ok { p with workYear := some (f w) }
  | none => .error (tyErrMsg fieldName)

/-- Assign `person.y1.FIELD = v`, a `TypeError` when the block is
absent. -/
def setY1 (fieldName : String) (f : Y1Block → Y1Block) (p : Person) :
    Except String Person :=
  match p.y1 with
  | some b => .ok { p with y1 := some (f b) }
  | none => .error (tyErrMsg fieldName)

/-- Assign `person.y2.FIELD = v`, a `TypeError` when the block is
absent. -/
def setY2 (fieldName : String) (f : Y2Block → Y2Block) (p : Person) :
    Except String Person :=
  match p.y2 with
  | some b => .ok { p with y2 := some (f b) }
  | none => .error (tyErrMsg fieldName)

/-- One guarded slot write: do nothing unless `keepResult` accepts the
incoming text. -/
def condSet (c : String) (setter : Person → Except String Person) (p : Person) :
    Except String Person :=
  if keepResult c then setter p else .ok p

/-- The result-assignment block of the row loop (columns L-O for a
Regular record, F-K for an NSF record), with the source's sequential
guarded writes. -/
def assignResults (cols : ResultCols) (p : Person) : Except String Person :=
  if p.category = "Regular" then
    exThen (condSet cols.workYearIppt (setWY "ippt" (fun w => { w with ippt := cols.workYearIppt })) p) fun p1 =>
    exThen (condSet cols.workYearVoc (setWY "voc" (fun w => { w with voc := cols.workYearVoc })) p1) fun p2 =>
    exThen (condSet cols.workYearAtp (setWY "atp" (fun w => { w with atp := cols.workYearAtp })) p2) fun p3 =>
    condSet cols.workYearCs (setWY "cs" (fun w => { w with cs := cols.workYearCs })) p3
  else
    exThen (condSet cols.y1Ippt (setY1 "ippt" (fun b => { b with ippt := cols.y1Ippt })) p) fun p1 =>
    exThen (condSet cols.y1Voc (setY1 "voc" (fun b => { b with voc := cols.y1Voc })) p1) fun p2 =>
    exThen (condSet cols.y1Atp (setY1 "atp" (fun b => { b with atp := cols.y1Atp })) p2) fun p3 =>
    exThen (condSet cols.y2Ippt (setY2 "ippt" (fun b => { b with ippt := cols.y2Ippt })) p3) fun p4 =>
    exThen (condSet cols.y2Voc (setY2 "voc" (fun b => { b with voc := cols.y2Voc })) p4) fun p5 =>
    condSet cols.y2Range (setY2 "range" (fun b => { b with range := cols.y2Range })) p5

/-- The mutable state of the `processExcelFile` row loop. -/
structure LoopState where
  personnelMap : List (String × Person)
  warnings : List String
  errors : List String
  currentPlatoon : String
  processed : Nat
  personnelCount : Nat
  skippedRows : Nat
deriving DecidableEq, Repr

/-- The loop state `processExcelFile` starts from. -/
def initState : LoopState :=
  { personnelMap := [], warnings := [], errors := [], currentPlatoon := "",
    processed := 0, personnelCount := 0, skippedRows := 0 }

/-- The fresh record built on a name's first sighting: category from the
row's service marker, unit from the ambient section context (or
`"Unassigned"`), `medicalStatus` fixed at `"Fit"`, and assessment blocks
shaped by the category (work-year block for Regular, `y1`/`y2` blocks
for NSF). -/
def mkBaseRecord (key cat platoon rank pes : String) (now : NDate) : Person :=
  { name := key, category := cat, platoon := platoon, unit := platoon,
    rank := rank, pes := pes, lastUpdated := now, ordDate := none,
    isORD := false, medicalStatus := "Fit", remedialTraining := [],
    workYear := if cat = "Regular" then some emptyWY else none,
    y1 := if cat = "Regular" then none else some emptyY1,
    y2 := if cat = "Regular" then none else some emptyY2,
    y1WindowEndDate := none, y2WindowEndDate := none }

/-- The always-run administrative updates of a data row: platoon, rank,
PES, and category, each only when the incoming value is truthy and
differs from the stored one. -/
def applyAdmin (currentPlatoon rank pes service cat : String) (p : Person) : Person :=
  let p1 := if currentPlatoon ≠ "" ∧ p.platoon ≠ currentPlatoon then
              { p with platoon := currentPlatoon } else p
  let p2 := if rank ≠ "" ∧ p1.rank ≠ rank then { p1 with rank := rank } else p1
  let p3 := if pes ≠ "" ∧ p2.pes ≠ pes then { p2 with pes := pes } else p2
  if service ≠ "" ∧ p3.category ≠ cat then { p3 with category := cat } else p3

/-- The NSF-only join of the `VOC`-sheet date maps into a record: ORD
date and Y1/Y2 window dates, with the Y2 window mirroring the ORD date
when absent. -/
def applyVocJoin (maps : OrdMaps) (key : String) (p : Person) : Person :=
  let p := match mapLookup maps.ord key with
           | some v => { p with ordDate := v }
           | none => p
  let p := match mapLookup maps.y1w key with
           | some v => { p with y1WindowEndDate := v }
           | none => p
  match mapLookup maps.y2w key with
  | some v => { p with y2WindowEndDate := v }
  | none =>
    if p.y2WindowEndDate = none ∧ p.ordDate ≠ none then
      { p with y2WindowEndDate := p.ordDate }
    else p

/-- The looked-up or freshly created record of a data row, after the
administrative updates and the NSF-only `VOC` join, but before the
result writes: the existing record under the sanitized name when there
is one, else a new base record whose category comes from the row's
service marker and whose unit comes from the ambient section context. -/
def rowPersonPre (maps : OrdMaps) (now : NDate) (st : LoopState)
    (rank name : String) (row : List Value) : Person :=
  let pes := fieldStr row 3
  let service := fieldStr row 4
  let key := sanitizePersonnelName name
  let cat := if strContains (jsUpper service) "REG" then "Regular" else "NSF"
  let person0 :=
    match mapLookup st.personnelMap key with
    | some p => p
    | none => mkBaseRecord key cat
        (if st.currentPlatoon ≠ "" then st.currentPlatoon else "Unassigned")
        rank pes now
  let p1 := applyAdmin st.currentPlatoon rank pes service cat person0
  if p1.category = "NSF" then applyVocJoin maps key p1 else p1

/-- Processing of one data row of the primary sheet: upsert the record
keyed by the sanitized name, run the administrative updates, join the
`VOC` dates when the record is NSF, then run the guarded result
writes (which can raise the modelled `TypeError`). -/
def processDataRow (maps : OrdMaps) (now : NDate) (st : LoopState)
    (rank name : String) (row : List Value) : Except String LoopState :=
  match assignResults (extractCols row) (rowPersonPre maps now st rank name row) with
  | .error e => .error e
  | .ok p3 =>
    .ok { st with
          personnelMap := mapSet st.personnelMap (sanitizePersonnelName name) p3,
          processed := st.processed + 1,
          personnelCount :=
            if (mapLookup st.personnelMap (sanitizePersonnelName name)).isSome then
              st.personnelCount
            else st.personnelCount + 1 }

/-- The warning pushed for an ambiguous unit-keyword header. -/
def ambiguousHeaderMsg (i : Nat) (raw : String) : String :=
  "Row " ++ toString (i + 1) ++ ": Ambiguous or unrecognized platoon header: \"" ++
    raw ++ "\". Skipping header."

/-- The warning pushed for a row missing its rank or name. -/
def missingNameRankMsg (i : Nat) : String :=
  "Row " ++ toString (i + 1) ++ ": Missing name or rank, skipping"

/-- One iteration of the `processExcelFile` row loop (`i` is the
zero-based row index, used only in warning texts). -/
def processRow (maps : OrdMaps) (now : NDate) (st : LoopState) (i : Nat)
    (row : List Value) : Except String LoopState :=
  match classifyRow row with
  | .blank => .ok { st with skippedRows := st.skippedRows + 1 }
  | .header u => .ok { st with currentPlatoon := u }
  | .ambiguous raw =>
    .ok { st with warnings := st.warnings ++ [ambiguousHeaderMsg i raw] }
  | .noise =>
    .ok { st with warnings := st.warnings ++ [missingNameRankMsg i],
                  skippedRows := st.skippedRows + 1 }
  | .data rank name => processDataRow maps now st rank name row

/-- The row loop from a starting index over the remaining rows. -/
def runRows (maps : OrdMaps) (now : NDate) :
    Nat → List (List Value) → LoopState → Except String LoopState
  | _, [], st => .ok st
  | i, row :: rest, st =>
    match processRow maps now st i row with
    | .error e => .error e
    | .ok st' => runRows maps now (i + 1) rest st'

/-- `validateAndCleanPersonnelRecord`: reassign an out-of-vocabulary
platoon to the category default with a warning, silently reset an
out-of-enumeration medical status to `"Fit"`, and replace an ORD date
failing the validity check by the generated date (NSF) or `null`
(Regular) with a warning. -/
def validateAndCleanPersonnelRecord (gen : NDate) (p : Person)
    (warnings : List String) : Person × List String :=
  let fallback := if p.category = "NSF" then "Platoon 1" else "COY HQ"
  let step1 :=
    if ! isValidPlatoon p.platoon then
      ({ p with platoon := fallback },
       warnings ++ [p.name ++ ": Invalid platoon \"" ++ p.platoon ++
         "\", assigned to " ++ fallback])
    else (p, warnings)
  let q := step1.1
  let ws := step1.2
  let q := if ! listHas MEDICAL_STATUS_OPTIONS q.medicalStatus then
             { q with medicalStatus := "Fit" } else q
  match q.ordDate with
  | some d =>
    if validateDateInputAllowFuture d then (q, ws)
    else ({ q with ordDate := if q.category = "NSF" then some gen else none },
          ws ++ [q.name ++ ": Invalid ORD date, using generated date"])
  | none => (q, ws)

/-- The post-pass over all records, threading the warnings array. -/
def postPass (gen : NDate) : List Person → List String → List Person × List String
  | [], ws => ([], ws)
  | p :: ps, ws =>
    let r := validateAndCleanPersonnelRecord gen p ws
    let rest := postPass gen ps r.2
    (r.1 :: rest.1, rest.2)

/-- What `processExcelFile` hands back: the success flag of the
surrounding try/catch, the record list, and the diagnostics arrays. -/
structure ProcessResult where
  success : Bool
  data : List Person
  recordCount : Nat
  errors : List String
  warnings : List String
deriving DecidableEq, Repr

/-- The fatal error message for a workbook without the primary sheet. -/
def missingSheetError : String :=
  "Missing required sheet: \"All in one view\". Please ensure your Excel file has a sheet named \"All in one view\"."

/-- The sheet lookup and row loop of `processExcelFile`, before the
post-pass: `none` when the primary sheet is absent, else the row loop's
outcome from the detected data start row. -/
def ingestLoop (jsParse : String → Option NDate) (now : NDate)
    (sheets : List (String × List (List Value))) :
    Option (Except String LoopState) :=
  (findSheetNamed "all in one view" sheets).map (fun rawData =>
    let maps := vocScan jsParse sheets
    let start := dataStartRowOf rawData
    runRows maps now start (rawData.drop start) initState)

/-- `SofunDataProcessor.processExcelFile` on an already decoded
workbook: find the `All in one view` sheet (fatal error when absent),
pre-scan the `VOC` sheet, run the row loop, run the post-pass, and
return the records with the collected diagnostics.  A modelled
exception from the row loop lands in the catch branch: `success =
false`, no records, the message as the single error. -/
def processExcelFile (jsParse : String → Option NDate) (now gen : NDate)
    (sheets : List (String × List (List Value))) : ProcessResult :=
  match ingestLoop jsParse now sheets with
  | none =>
    { success := false, data := [], recordCount := 0,
      errors := [missingSheetError], warnings := [] }
  | some (.error e) =>
    { success := false, data := [], recordCount := 0,
      errors := [e], warnings := [] }
  | some (.ok st) =>
    let final := postPass gen (st.personnelMap.map (fun kp => kp.2)) st.warnings
    { success := true, data := final.1, recordCount := final.1.length,
      errors := st.errors, warnings := final.2 }

/-- Erase the `lastUpdated` timestamp of a record: the projection under
which two ingestion runs are compared "in content". -/
def eraseTs (p : Person) : Person := { p with lastUpdated := ⟨0, 0, 0⟩ }

/-- The category/shape agreement of a record: a Regular record carries
exactly the work-year block, an NSF record exactly the `y1`/`y2`
blocks. -/
def shapeOKb (p : Person) : Bool :=
  (p.category = "Regular" ∧ p.workYear.isSome ∧ p.y1 = none ∧ p.y2 = none) ∨
    (p.category = "NSF" ∧ p.y1.isSome ∧ p.y2.isSome ∧ p.workYear = none)

/-- A record whose ORD date (when present) passes the post-pass validity
check, so the random regeneration branch cannot fire on it. -/
def ordOKb (p : Person) : Bool :=
  match p.ordDate with
  | none => true
  | some d => validateDateInputAllowFuture d

/-- True when the row loop treats the row as a personnel data row. -/
def isDataRow (row : List Value) : Bool :=
  match classifyRow row with
  | .data _ _ => true
  | _ => false

/-- The merge key a data row contributes (sanitized column-C name). -/
def rowNameKey (row : List Value) : String :=
  sanitizePersonnelName (fieldStr row 2)

/-- The category a data row derives from its column-E service marker
(`Regular` when it contains `REG` upper-cased, `NSF` otherwise). -/
def rowServiceCat (row : List Value) : String :=
  if strContains (jsUpper (fieldStr row 4)) "REG" then "Regular" else "NSF"

/-- All data rows of the list that share a merge key agree on the
derived category (no row recategorizes a record another row created). -/
@[reducible] def consistentRows (l : List (List Value)) : Prop :=
  ∀ r1 ∈ l, ∀ r2 ∈ l, isDataRow r1 = true → isDataRow r2 = true →
    rowNameKey r1 = rowNameKey r2 → rowServiceCat r1 = rowServiceCat r2

/-- The merge rule the specification states for one assessment slot: a
non-empty, non-sentinel incoming value overwrites, anything else leaves
the stored value. -/
def mergeSlot (old incoming : String) : String :=
  if keepResult incoming then incoming else old

/-- The specification's merge of a full work-year block with a row's
incoming columns: slots merge per `mergeSlot`, dates are untouched. -/
def wyMerged (w : WorkYearBlock) (cols : ResultCols) : WorkYearBlock :=
  { ippt := mergeSlot w.ippt cols.workYearIppt, ipptDate := w.ipptDate,
    voc := mergeSlot w.voc cols.workYearVoc, vocDate := w.vocDate,
    atp := mergeSlot w.atp cols.workYearAtp, atpDate := w.atpDate,
    cs := mergeSlot w.cs cols.workYearCs, csDate := w.csDate }

/-- The specification's merge of a `y1` block with a row's incoming
columns. -/
def y1Merged (b : Y1Block) (cols : ResultCols) : Y1Block :=
  { ippt := mergeSlot b.ippt cols.y1Ippt, ipptDate := b.ipptDate,
    voc := mergeSlot b.voc cols.y1Voc, vocDate := b.vocDate,
    atp := mergeSlot b.atp cols.y1Atp, atpDate := b.atpDate }

/-- The specification's merge of a `y2` block with a row's incoming
columns. -/
def y2Merged (b : Y2Block) (cols : ResultCols) : Y2Block :=
  { ippt := mergeSlot b.ippt cols.y2Ippt, ipptDate := b.ipptDate,
    voc := mergeSlot b.voc cols.y2Voc, vocDate := b.vocDate,
    range := mergeSlot b.range cols.y2Range, rangeDate := b.rangeDate }

/-- A fixed wall-clock instant for concrete runs. -/
def sampleNow : NDate := ⟨2025, 6, 1⟩

/-- A fixed generated ORD date for concrete runs. -/
def sampleGen : NDate := ⟨2026, 1, 15⟩

/-- The workbook refuting C1: the primary sheet is present, the first
row creates `TAN` as NSF, the second row remarks the same name `REG` and
carries the work-year IPPT result `Gold` in column L. -/
def c1sheets : List (String × List (List Value)) :=
  [("All in one view",
    [[.str "", .str "SGT", .str "TAN", .str "A1", .str "NSF"],
     [.str "", .str "SGT", .str "TAN", .str "A1", .str "REG", .str "", .str "",
      .str "", .str "", .str "", .str "", .str "Gold"]])]

/-- C1: row- and field-level problems never reject the whole ingestion;
the rejecting branch is reachable only when the primary sheet is
missing.  Refuted: with the primary sheet present, a data row that
recategorizes an existing record and carries a result in the new
category's columns makes the run land in the rejecting branch. -/
theorem c1_counterexample :
    (findSheetNamed "all in one view" c1sheets).isSome = true ∧
      (processExcelFile jsParseNone sampleNow sampleGen c1sheets).success = false ∧
      (processExcelFile jsParseNone sampleNow sampleGen c1sheets).data = [] := by
  decide

/-- C2: `parseDate` on the numeric cell `141125` and on the string
`"14-11-25"`.  The early guard `typeof dateStr !== 'string'` returns
`null` for every numeric input, so the function's own numeric
serial/DDMMYY branch is dead code: the number `141125` yields no date at
all, while the string forms of the same day parse to 2025-11-14. -/
theorem c2_parseDate_numeric_dead :
    parseDate jsParseNone (.num 141125) = none ∧
      parseDate jsParseNone (.str "14-11-25") = some ⟨2025, 11, 14⟩ ∧
      parseDate jsParseNone (.str "141125") = some ⟨2025, 11, 14⟩ := by
  decide

/-- The workbook refuting C3: the first row creates `TAN` as NSF (so the
record carries `y1`/`y2` and no work-year block), the second row carries
the service marker `REG` with empty result columns, flipping the stored
category without reshaping the blocks. -/
def c3sheets : List (String × List (List Value)) :=
  [("All in one view",
    [[.str "", .str "SGT", .str "TAN", .str "A1", .str "NSF"],
     [.str "", .str "SGT", .str "TAN", .str "A1", .str "REG"]])]

/-- C3: every record's assessment-block shape matches its final
category.  Refuted: after a later row recategorizes the record to
Regular, the ingestion output contains a Regular record that still
carries the NSF `y1`/`y2` blocks and no work-year block. -/
theorem c3_counterexample :
    (processExcelFile jsParseNone sampleNow sampleGen c3sheets).data.map
        (fun p => (p.category, p.workYear.isSome, p.y1.isSome, p.y2.isSome)) =
      [("Regular", false, true, true)] ∧
      (processExcelFile jsParseNone sampleNow sampleGen c3sheets).data.all
        shapeOKb = false := by
  decide

/-- The workbook refuting C5: the primary sheet is present but holds
only title/metadata rows, none recognizable as data. -/
def c5sheets : List (String × List (List Value)) :=
  [("All in one view",
    [[.str "SOFUN COMPANY IPPT TRACKING"], [.str "Updated:", .str "this year"]])]

/-- C5: a primary sheet with zero recognizable data rows yields an empty
record list and exactly one structural error.  Refuted: the run stays in
the success branch with an empty `errors` array (the `errors` list of
the loop is never appended to), so no structural error is reported. -/
theorem c5_counterexample :
    (processExcelFile jsParseNone sampleNow sampleGen c5sheets).data = [] ∧
      (processExcelFile jsParseNone sampleNow sampleGen c5sheets).errors = [] ∧
      (processExcelFile jsParseNone sampleNow sampleGen c5sheets).errors.length ≠ 1 ∧
      (processExcelFile jsParseNone sampleNow sampleGen c5sheets).success = true := by
  decide

/-- C7: with no matching rule, `validatePlatoon` is claimed to return a
category-specific default, never an unassigned value.  Refuted: the
function takes no category at all and its final fallback is literally
`"Unassigned"`, which is not even in the closed `VALID_PLATOONS`
vocabulary. -/
theorem c7_counterexample :
    validatePlatoon "xyz" = "Unassigned" ∧
      validatePlatoon "xyz" ≠ "Platoon 1" ∧
      isValidPlatoon (validatePlatoon "xyz") = false := by
  decide

/-- The workbook refuting C9: one NSF data row, and a `VOC` sheet whose
ORD date `01-01-19` parses to 2019-01-01, which fails the post-pass
validity check (it lies before 2020-01-01) and is replaced by the
randomly generated date. -/
def c9sheets : List (String × List (List Value)) :=
  [("All in one view",
    [[.str "", .str "SGT", .str "TAN", .str "", .str "NSF"]]),
   ("VOC",
    [[.str "", .str "SGT", .str "TAN", .str "", .str "", .str "",
      .str "01-01-19"]])]

/-- C9: ingestion is claimed to be a deterministic function of the sheet
contents, including the post-pass handling of an ORD date that fails the
validity check.  Refuted: that post-pass branch stores the value of the
random generator, so two runs over the same sheets with different
generator outcomes produce records with different content (different
ORD dates), timestamps aside. -/
theorem c9_counterexample :
    (processExcelFile jsParseNone sampleNow ⟨2026, 1, 1⟩ c9sheets).data.map
        (fun p => p.ordDate) = [some ⟨2026, 1, 1⟩] ∧
      (processExcelFile jsParseNone sampleNow ⟨2026, 2, 2⟩ c9sheets).data.map
        (fun p => p.ordDate) = [some ⟨2026, 2, 2⟩] ∧
      (processExcelFile jsParseNone sampleNow ⟨2026, 1, 1⟩ c9sheets).data.map eraseTs ≠
        (processExcelFile jsParseNone sampleNow ⟨2026, 2, 2⟩ c9sheets).data.map eraseTs := by
  decide

/-- On a Regular record whose work-year block is present, the result
writes reduce to the per-slot merge rule and never fail. -/
theorem assignResults_regular (cols : ResultCols) (p : Person) (w : WorkYearBlock)
    (hcat : p.category = "Regular") (hw : p.workYear = some w) :
    assignResults cols p = Except.ok { p with workYear := some (wyMerged w cols) } := by
  rcases p with ⟨nm, cat, pl, un, rk, pe, lu, od, io, ms, rt, b1, b2, wy, w1, w2⟩
  rcases w with ⟨a1, a2, a3, a4, a5, a6, a7, a8⟩
  simp only at hcat hw
  subst hcat; subst hw
  simp only [assignResults, condSet, setWY, exThen, wyMerged, mergeSlot, if_true]
  split_ifs <;> rfl

/-- On an NSF record whose `y1` and `y2` blocks are present, the result
writes reduce to the per-slot merge rule and never fail. -/
theorem assignResults_nsf (cols : ResultCols) (p : Person) (b1 : Y1Block) (b2 : Y2Block)
    (hcat : p.category ≠ "Regular") (h1 : p.y1 = some b1) (h2 : p.y2 = some b2) :
    assignResults cols p =
      Except.ok { p with y1 := some (y1Merged b1 cols), y2 := some (y2Merged b2 cols) } := by
  rcases p with ⟨nm, cat, pl, un, rk, pe, lu, od, io, ms, rt, q1, q2, wy, w1, w2⟩
  rcases b1 with ⟨a1, a2, a3, a4, a5, a6⟩
  rcases b2 with ⟨c1, c2, c3, c4, c5, c6⟩
  simp only at hcat h1 h2
  subst h1; subst h2
  simp only [assignResults, condSet, setY1, setY2, exThen, y1Merged, y2Merged, mergeSlot]
  rw [if_neg hcat]
  split_ifs <;> rfl

/-- C4: the merge of a data row into a record writes an assessment slot
exactly when the incoming cell is non-empty and not the (case-folded)
`NA`/`MISSING` sentinel; such a value always overwrites, anything else
leaves the stored slot, and the sentinels are never stored. -/
theorem c4_merge_nondestructive (cols : ResultCols) (p : Person) :
    (∀ w, p.category = "Regular" → p.workYear = some w →
      assignResults cols p = Except.ok { p with workYear := some (wyMerged w cols) }) ∧
    (∀ b1 b2, p.category ≠ "Regular" → p.y1 = some b1 → p.y2 = some b2 →
      assignResults cols p =
        Except.ok { p with y1 := some (y1Merged b1 cols), y2 := some (y2Merged b2 cols) }) ∧
    (∀ old, mergeSlot old "MISSING" = old) ∧
    (∀ old, mergeSlot old "missing" = old) ∧
    (∀ old, mergeSlot old "na" = old) ∧
    (∀ old, mergeSlot old "" = old) ∧
    (∀ old v, keepResult v = true → mergeSlot old v = v) := by
  refine ⟨fun w hc hw => assignResults_regular cols p w hc hw,
    fun b1 b2 hc h1 h2 => assignResults_nsf cols p b1 b2 hc h1 h2, ?_, ?_, ?_, ?_, ?_⟩
  · intro old
    have h : keepResult "MISSING" = false := by decide
    simp [mergeSlot, h]
  · intro old
    have h : keepResult "missing" = false := by decide
    simp [mergeSlot, h]
  · intro old
    have h : keepResult "na" = false := by decide
    simp [mergeSlot, h]
  · intro old
    have h : keepResult "" = false := by decide
    simp [mergeSlot, h]
  · intro old v hv
    simp [mergeSlot, hv]

/-- A data row leaves the ambient current-unit context untouched. -/
theorem processDataRow_platoon (maps : OrdMaps) (now : NDate) (st : LoopState)
    (rank name : String) (row : List Value) (st' : LoopState)
    (h : processDataRow maps now st rank name row = .ok st') :
    st'.currentPlatoon = st.currentPlatoon := by
  simp only [processDataRow] at h
  split at h
  · exact Except.noConfusion h
  · injection h with h
    subst h
    rfl

/-- A `header` classification names exactly the strict section-header
match of the first cell. -/
theorem classifyRow_header_eq (row : List Value) (u : String)
    (h : classifyRow row = .header u) :
    matchSectionHeader (fieldStr row 0) = some u := by
  simp only [classifyRow] at h
  split at h
  · exact RowClass.noConfusion h
  · split at h
    · injection h with h
      subst h
      assumption
    · split at h
      · exact RowClass.noConfusion h
      · split at h
        · exact RowClass.noConfusion h
        · exact RowClass.noConfusion h

/-- C8: section-header detection is strict.  During row iteration the
ambient current-unit context changes only when the first cell passes the
strict matcher (the `PLATOON <digit>` pattern or an exact
whitespace/case-insensitive support-unit match), and a non-blank row
whose first cell merely contains a unit keyword without passing the
strict matcher is consumed with a warning only: the record map, the
current unit and every other loop field stay unchanged. -/
theorem c8_strict_header (maps : OrdMaps) (now : NDate) (st : LoopState)
    (i : Nat) (row : List Value) :
    (∀ st', processRow maps now st i row = .ok st' →
      st'.currentPlatoon ≠ st.currentPlatoon →
      matchSectionHeader (fieldStr row 0) = some st'.currentPlatoon) ∧
    (isBlankRow row = false → fieldStr row 0 ≠ "" →
      matchSectionHeader (fieldStr row 0) = none →
      unitKeywordLike (fieldStr row 0) = true →
      processRow maps now st i row =
        .ok { st with
              warnings := st.warnings ++ [ambiguousHeaderMsg i (fieldStr row 0)] }) := by
  constructor
  · intro st' hok hne
    rcases hcl : classifyRow row with _ | u | raw | _ | ⟨rank, name⟩ <;>
      simp only [processRow, hcl] at hok
    · injection hok with hok
      subst hok
      exact absurd rfl hne
    · injection hok with hok
      subst hok
      exact classifyRow_header_eq row u hcl
    · injection hok with hok
      subst hok
      exact absurd rfl hne
    · injection hok with hok
      subst hok
      exact absurd rfl hne
    · exact absurd (processDataRow_platoon maps now st rank name row st' hok) hne
  · intro hblank hraw hnone hkw
    have hcl : classifyRow row = .ambiguous (fieldStr row 0) := by
      simp only [classifyRow, hblank, Bool.false_eq_true, if_false, hnone]
      rw [if_pos ⟨hraw, hkw⟩]
    simp only [processRow, hcl]

/-- C7 (amended): an exact match against the resolver's own vocabulary
is returned as-is and `"3 PLT"` resolves to `"Platoon 3"`, but when no
rule matches `validatePlatoon` returns `"Unassigned"` (it takes no
category); the category-specific defaulting the claim describes happens
in the post-pass, which sends an NSF record whose platoon failed
validation to `"Platoon 1"`. -/
theorem c7_resolver_amended :
    (∀ s ∈ ["Platoon 1", "Platoon 2", "Platoon 3", "Platoon 4",
            "COY HQ", "Support Platoon", "Admin", "Medical",
            "Signals", "Transport", "Unassigned"], validatePlatoon s = s) ∧
    validatePlatoon "3 PLT" = "Platoon 3" ∧
    validatePlatoon "xyz" = "Unassigned" ∧
    (∀ gen p ws, p.category = "NSF" → isValidPlatoon p.platoon = false →
      ((validateAndCleanPersonnelRecord gen p ws).1).platoon = "Platoon 1") := by
  refine ⟨by decide, by decide, by decide, ?_⟩
  intro gen p ws hcat hv
  simp only [validateAndCleanPersonnelRecord, hcat, hv, Bool.not_false, if_true,
    reduceIte]
  split <;> split_ifs <;> rfl

/-- A successful lookup names an entry of the association list. -/
theorem mapLookup_mem {α : Type} (m : List (String × α)) (k : String) (v : α)
    (h : mapLookup m k = some v) : (k, v) ∈ m := by
  induction m with
  | nil => exact Option.noConfusion h
  | cons kp rest ih =>
    rcases kp with ⟨k', v'⟩
    simp only [mapLookup] at h
    by_cases hk : k' = k
    · rw [if_pos hk] at h
      injection h with h
      subst h; subst hk
      exact List.mem_cons_self _ _
    · rw [if_neg hk] at h
      exact List.mem_cons_of_mem _ (ih h)

/-- An entry of `mapSet m k v` is an entry of `m` or the new pair. -/
theorem mem_mapSet {α : Type} (m : List (String × α)) (k : String) (v : α)
    (kp : String × α) (h : kp ∈ mapSet m k v) : kp ∈ m ∨ kp = (k, v) := by
  induction m with
  | nil =>
    simp only [mapSet, List.mem_singleton] at h
    exact Or.inr h
  | cons hd rest ih =>
    rcases hd with ⟨k', v'⟩
    simp only [mapSet] at h
    by_cases hk : k' = k
    · rw [if_pos hk] at h
      rcases List.mem_cons.mp h with h | h
      · exact Or.inr h
      · exact Or.inl (List.mem_cons_of_mem _ h)
    · rw [if_neg hk] at h
      rcases List.mem_cons.mp h with h | h
      · exact Or.inl (h ▸ List.mem_cons_self _ _)
      · rcases ih h with h | h
        · exact Or.inl (List.mem_cons_of_mem _ h)
        · exact Or.inr h

/-- Per-record invariant preservation through one data row: the updated
map's entries all satisfy `P` when the incoming map's do, provided `P`
survives record creation, the administrative updates, the `VOC` join and
the result writes. -/
theorem processDataRow_inv (maps : OrdMaps) (now : NDate) (P : Person → Prop)
    (hbase : ∀ key cat platoon rank pes, P (mkBaseRecord key cat platoon rank pes now))
    (hadmin : ∀ cp rank pes service cat p, P p → P (applyAdmin cp rank pes service cat p))
    (hjoin : ∀ key p, P p → P (applyVocJoin maps key p))
    (hassign : ∀ cols p p', P p → assignResults cols p = .ok p' → P p')
    (st : LoopState) (rank name : String) (row : List Value) (st' : LoopState)
    (hm : ∀ kp ∈ st.personnelMap, P kp.2)
    (h : processDataRow maps now st rank name row = .ok st') :
    ∀ kp ∈ st'.personnelMap, P kp.2 := by
  have hpre : P (rowPersonPre maps now st rank name row) := by
    simp only [rowPersonPre]
    repeat' split
    all_goals
      first
        | exact hjoin _ _ (hadmin _ _ _ _ _ _ (hbase _ _ _ _ _))
        | exact hadmin _ _ _ _ _ _ (hbase _ _ _ _ _)
        | exact hjoin _ _ (hadmin _ _ _ _ _ _ (hm _ (mapLookup_mem _ _ _ (by assumption))))
        | exact hadmin _ _ _ _ _ _ (hm _ (mapLookup_mem _ _ _ (by assumption)))
  simp only [processDataRow] at h
  split at h
  · exact Except.noConfusion h
  case _ p3 heq =>
    injection h with h
    subst h
    intro kp hkp
    rcases mem_mapSet _ _ _ _ hkp with hkp | hkp
    · exact hm kp hkp
    · subst hkp
      exact hassign _ _ _ hpre heq

/-- Per-record invariant preservation through the whole row loop. -/
theorem runRows_inv (maps : OrdMaps) (now : NDate) (P : Person → Prop)
    (hbase : ∀ key cat platoon rank pes, P (mkBaseRecord key cat platoon rank pes now))
    (hadmin : ∀ cp rank pes service cat p, P p → P (applyAdmin cp rank pes service cat p))
    (hjoin : ∀ key p, P p → P (applyVocJoin maps key p))
    (hassign : ∀ cols p p', P p → assignResults cols p = .ok p' → P p') :
    ∀ (l : List (List Value)) (i : Nat) (st st' : LoopState),
      (∀ kp ∈ st.personnelMap, P kp.2) →
      runRows maps now i l st = .ok st' →
      ∀ kp ∈ st'.personnelMap, P kp.2 := by
  intro l
  induction l with
  | nil =>
    intro i st st' hm h
    injection h with h
    subst h
    exact hm
  | cons row rest ih =>
    intro i st st' hm h
    simp only [runRows] at h
    split at h
    · exact Except.noConfusion h
    case _ st1 hp =>
      rcases hcl : classifyRow row with _ | u | raw | _ | ⟨rank, name⟩ <;>
        simp only [processRow, hcl] at hp
      · injection hp with hp; subst hp; exact (ih _ _ _ · h) hm
      · injection hp with hp; subst hp; exact (ih _ _ _ · h) hm
      · injection hp with hp; subst hp; exact (ih _ _ _ · h) hm
      · injection hp with hp; subst hp; exact (ih _ _ _ · h) hm
      · exact ih _ _ _
          (processDataRow_inv maps now P hbase hadmin hjoin hassign
            st rank name row st1 hm hp) h

/-- The administrative updates touch only platoon, rank, PES and
category. -/
theorem applyAdmin_medical (cp rank pes service cat : String) (p : Person) :
    (applyAdmin cp rank pes service cat p).medicalStatus = p.medicalStatus := by
  simp only [applyAdmin]
  split_ifs <;> rfl

/-- The `VOC` join touches only the ORD and window dates. -/
theorem applyVocJoin_medical (maps : OrdMaps) (key : String) (p : Person) :
    (applyVocJoin maps key p).medicalStatus = p.medicalStatus := by
  simp only [applyVocJoin]
  repeat' split
  all_goals rfl

/-- Agreement of two records on every field outside the assessment
blocks (the fields the result writes never touch). -/
def adminEq (q p : Person) : Prop :=
  q.name = p.name ∧ q.category = p.category ∧ q.platoon = p.platoon ∧
  q.unit = p.unit ∧ q.rank = p.rank ∧ q.pes = p.pes ∧
  q.lastUpdated = p.lastUpdated ∧ q.ordDate = p.ordDate ∧
  q.isORD = p.isORD ∧ q.medicalStatus = p.medicalStatus ∧
  q.remedialTraining = p.remedialTraining ∧
  q.y1WindowEndDate = p.y1WindowEndDate ∧ q.y2WindowEndDate = p.y2WindowEndDate

theorem adminEq_refl (p : Person) : adminEq p p :=
  ⟨rfl, rfl, rfl, rfl, rfl, rfl, rfl, rfl, rfl, rfl, rfl, rfl, rfl⟩

theorem adminEq_trans {a b c : Person} (h1 : adminEq a b) (h2 : adminEq b c) :
    adminEq a c := by
  obtain ⟨e1, e2, e3, e4, e5, e6, e7, e8, e9, e10, e11, e12, e13⟩ := h1
  obtain ⟨f1, f2, f3, f4, f5, f6, f7, f8, f9, f10, f11, f12, f13⟩ := h2
  exact ⟨e1.trans f1, e2.trans f2, e3.trans f3, e4.trans f4, e5.trans f5,
    e6.trans f6, e7.trans f7, e8.trans f8, e9.trans f9, e10.trans f10,
    e11.trans f11, e12.trans f12, e13.trans f13⟩

theorem setWY_adminEq (n : String) (f : WorkYearBlock → WorkYearBlock)
    (p p' : Person) (h : setWY n f p = .ok p') : adminEq p' p := by
  simp only [setWY] at h
  split at h
  · injection h with h
    subst h
    exact ⟨rfl, rfl, rfl, rfl, rfl, rfl, rfl, rfl, rfl, rfl, rfl, rfl, rfl⟩
  · exact Except.noConfusion h

theorem setY1_adminEq (n : String) (f : Y1Block → Y1Block)
    (p p' : Person) (h : setY1 n f p = .ok p') : adminEq p' p := by
  simp only [setY1] at h
  split at h
  · injection h with h
    subst h
    exact ⟨rfl, rfl, rfl, rfl, rfl, rfl, rfl, rfl, rfl, rfl, rfl, rfl, rfl⟩
  · exact Except.noConfusion h

theorem setY2_adminEq (n : String) (f : Y2Block → Y2Block)
    (p p' : Person) (h : setY2 n f p = .ok p') : adminEq p' p := by
  simp only [setY2] at h
  split at h
  · injection h with h
    subst h
    exact ⟨rfl, rfl, rfl, rfl, rfl, rfl, rfl, rfl, rfl, rfl, rfl, rfl, rfl⟩
  · exact Except.noConfusion h

theorem condSet_adminEq (c : String) (setter : Person → Except String Person)
    (hs : ∀ p p', setter p = .ok p' → adminEq p' p) (p p' : Person)
    (h : condSet c setter p = .ok p') : adminEq p' p := by
  simp only [condSet] at h
  split at h
  · exact hs p p' h
  · injection h with h
    subst h
    exact adminEq_refl _

theorem exThen_adminEq (x : Except String Person)
    (f : Person → Except String Person) (p p' : Person)
    (hx : ∀ q, x = .ok q → adminEq q p)
    (hf : ∀ q q', f q = .ok q' → adminEq q' q)
    (h : exThen x f = .ok p') : adminEq p' p := by
  cases x with
  | error e => exact Except.noConfusion h
  | ok q => exact adminEq_trans (hf q p' h) (hx q rfl)

/-- The result writes touch only the assessment blocks: every other
field of the record survives a successful `assignResults` unchanged. -/
theorem assignResults_adminEq (cols : ResultCols) (p p' : Person)
    (h : assignResults cols p = .ok p') : adminEq p' p := by
  simp only [assignResults] at h
  split at h
  · refine exThen_adminEq _ _ _ _
      (fun q hq => condSet_adminEq _ _ (setWY_adminEq _ _) _ _ hq) ?_ h
    intro q q' hq'
    refine exThen_adminEq _ _ _ _
      (fun r hr => condSet_adminEq _ _ (setWY_adminEq _ _) _ _ hr) ?_ hq'
    intro r r' hr'
    refine exThen_adminEq _ _ _ _
      (fun t ht => condSet_adminEq _ _ (setWY_adminEq _ _) _ _ ht) ?_ hr'
    intro t t' ht'
    exact condSet_adminEq _ _ (setWY_adminEq _ _) _ _ ht'
  · refine exThen_adminEq _ _ _ _
      (fun q hq => condSet_adminEq _ _ (setY1_adminEq _ _) _ _ hq) ?_ h
    intro q q' hq'
    refine exThen_adminEq _ _ _ _
      (fun r hr => condSet_adminEq _ _ (setY1_adminEq _ _) _ _ hr) ?_ hq'
    intro r r' hr'
    refine exThen_adminEq _ _ _ _
      (fun t ht => condSet_adminEq _ _ (setY1_adminEq _ _) _ _ ht) ?_ hr'
    intro t t' ht'
    refine exThen_adminEq _ _ _ _
      (fun a ha => condSet_adminEq _ _ (setY2_adminEq _ _) _ _ ha) ?_ ht'
    intro a a' ha'
    refine exThen_adminEq _ _ _ _
      (fun b hb => condSet_adminEq _ _ (setY2_adminEq _ _) _ _ hb) ?_ ha'
    intro b b' hb'
    exact condSet_adminEq _ _ (setY2_adminEq _ _) _ _ hb'

/-- Every record of the post-pass output is the cleanup of a record of
the input list. -/
theorem postPass_mem (gen : NDate) (ps : List Person) (ws : List String)
    (q : Person) (hq : q ∈ (postPass gen ps ws).1) :
    ∃ p ∈ ps, ∃ ws', q = (validateAndCleanPersonnelRecord gen p ws').1 := by
  induction ps generalizing ws with
  | nil => exact absurd hq (by simp [postPass])
  | cons p rest ih =>
    simp only [postPass] at hq
    rcases List.mem_cons.mp hq with hq | hq
    · exact ⟨p, List.mem_cons_self _ _, ws, hq⟩
    · rcases ih _ hq with ⟨p', hp', ws', hq'⟩
      exact ⟨p', List.mem_cons_of_mem _ hp', ws', hq'⟩

/-- A true `listHas` is list membership. -/
theorem listHas_mem (l : List String) (s : String) (h : listHas l s = true) :
    s ∈ l := by
  simp only [listHas, List.any_eq_true, decide_eq_true_eq] at h
  rcases h with ⟨x, hx, hxs⟩
  exact hxs ▸ hx

/-- The post-pass always leaves a platoon from the closed vocabulary. -/
theorem validateAndClean_platoon (gen : NDate) (p : Person) (ws : List String) :
    isValidPlatoon ((validateAndCleanPersonnelRecord gen p ws).1).platoon = true := by
  simp only [validateAndCleanPersonnelRecord]
  repeat' split
  all_goals simp_all [isValidPlatoon]
  all_goals decide

/-- A record that reaches the post-pass with medical status `"Fit"`
leaves it with medical status `"Fit"`. -/
theorem validateAndClean_medical_fit (gen : NDate) (q : Person) (ws : List String)
    (h : q.medicalStatus = "Fit") :
    ((validateAndCleanPersonnelRecord gen q ws).1).medicalStatus = "Fit" := by
  simp only [validateAndCleanPersonnelRecord]
  repeat' split
  all_goals simp_all

/-- The post-pass silently resets an out-of-enumeration medical status
to `"Fit"`. -/
theorem validateAndClean_medical_reset (gen : NDate) (q : Person) (ws : List String)
    (h : listHas MEDICAL_STATUS_OPTIONS q.medicalStatus = false) :
    ((validateAndCleanPersonnelRecord gen q ws).1).medicalStatus = "Fit" := by
  simp only [validateAndCleanPersonnelRecord]
  repeat' split
  all_goals simp_all

/-- C6: every record of the ingestion output carries a platoon from the
closed `VALID_PLATOONS` vocabulary: the post-pass reassigns any
out-of-vocabulary value (including the `"Unassigned"` placeholder) to
the category default. -/
theorem c6_unit_closure (jsParse : String → Option NDate) (now gen : NDate)
    (sheets : List (String × List (List Value))) (p : Person)
    (hp : p ∈ (processExcelFile jsParse now gen sheets).data) :
    p.platoon ∈ VALID_PLATOONS := by
  simp only [processExcelFile] at hp
  split at hp
  · exact absurd hp (by simp)
  · exact absurd hp (by simp)
  · rcases postPass_mem _ _ _ _ hp with ⟨q, _, ws', hq⟩
    subst hq
    exact listHas_mem _ _ (validateAndClean_platoon gen q ws')

/-- C10: every record of the ingestion output has medical status exactly
`"Fit"`: new records are created with `"Fit"`, no step of the row loop
ever writes the field, and the post-pass silently resets anything
outside the enumeration back to `"Fit"`. -/
theorem c10_medical_fit (jsParse : String → Option NDate) (now gen : NDate)
    (sheets : List (String × List (List Value))) (p : Person)
    (hp : p ∈ (processExcelFile jsParse now gen sheets).data) :
    p.medicalStatus = "Fit" ∧
    (∀ gen2 q ws, listHas MEDICAL_STATUS_OPTIONS q.medicalStatus = false →
      ((validateAndCleanPersonnelRecord gen2 q ws).1).medicalStatus = "Fit") := by
  refine ⟨?_, fun gen2 q ws h => validateAndClean_medical_reset gen2 q ws h⟩
  simp only [processExcelFile] at hp
  split at hp
  · exact absurd hp (by simp)
  · exact absurd hp (by simp)
  case _ st heq =>
    rcases postPass_mem _ _ _ _ hp with ⟨q, hqmem, ws', hq⟩
    subst hq
    refine validateAndClean_medical_fit gen q ws' ?_
    rcases List.mem_map.mp hqmem with ⟨kp, hkp, hkq⟩
    subst hkq
    simp only [ingestLoop, Option.map_eq_some'] at heq
    rcases heq with ⟨rawData, _, hrun⟩
    exact runRows_inv (vocScan jsParse sheets) now (fun r => r.medicalStatus = "Fit")
      (fun _ _ _ _ _ => rfl)
      (fun cp rank pes service cat r hr => (applyAdmin_medical cp rank pes service cat r).trans hr)
      (fun key r hr => (applyVocJoin_medical _ key r).trans hr)
      (fun cols r r' hr hok =>
        ((assignResults_adminEq cols r r' hok).2.2.2.2.2.2.2.2.2.1).trans hr)
      _ _ _ _ (by simp [initState]) hrun kp hkp

/-- A stretch of rows without a single data row leaves the record map
and the errors array untouched and cannot fail. -/
theorem runRows_nodata (maps : OrdMaps) (now : NDate) :
    ∀ (l : List (List Value)) (i : Nat) (st : LoopState),
      (∀ r ∈ l, isDataRow r = false) →
      ∃ st', runRows maps now i l st = .ok st' ∧
        st'.personnelMap = st.personnelMap ∧ st'.errors = st.errors := by
  intro l
  induction l with
  | nil =>
    intro i st _
    exact ⟨st, rfl, rfl, rfl⟩
  | cons row rest ih =>
    intro i st h
    have hrest : ∀ r ∈ rest, isDataRow r = false :=
      fun r hr => h r (List.mem_cons_of_mem _ hr)
    have hrow : isDataRow row = false := h row (List.mem_cons_self _ _)
    rcases hcl : classifyRow row with _ | u | raw | _ | ⟨rank, name⟩
    · rcases ih (i + 1) { st with skippedRows := st.skippedRows + 1 } hrest with
        ⟨st', hrun, hmap, herr⟩
      exact ⟨st', by simp only [runRows, processRow, hcl]; exact hrun, hmap, herr⟩
    · rcases ih (i + 1) { st with currentPlatoon := u } hrest with
        ⟨st', hrun, hmap, herr⟩
      exact ⟨st', by simp only [runRows, processRow, hcl]; exact hrun, hmap, herr⟩
    · rcases ih (i + 1)
        { st with warnings := st.warnings ++ [ambiguousHeaderMsg i raw] } hrest with
        ⟨st', hrun, hmap, herr⟩
      exact ⟨st', by simp only [runRows, processRow, hcl]; exact hrun, hmap, herr⟩
    · rcases ih (i + 1)
        { st with warnings := st.warnings ++ [missingNameRankMsg i],
                  skippedRows := st.skippedRows + 1 } hrest with
        ⟨st', hrun, hmap, herr⟩
      exact ⟨st', by simp only [runRows, processRow, hcl]; exact hrun, hmap, herr⟩
    · rw [isDataRow, hcl] at hrow
      exact absurd hrow (by simp)

/-- C5 (amended): when the primary sheet is present but none of its rows
from the detected data start is a data row, the ingestion succeeds with
an empty record list and an empty `errors` array — no structural error
is reported for a present-but-empty sheet, and no records are
fabricated. -/
theorem c5_empty_amended (jsParse : String → Option NDate) (now gen : NDate)
    (sheets : List (String × List (List Value))) (rawData : List (List Value))
    (hsheet : findSheetNamed "all in one view" sheets = some rawData)
    (hnodata : ∀ r ∈ rawData.drop (dataStartRowOf rawData), isDataRow r = false) :
    (processExcelFile jsParse now gen sheets).success = true ∧
    (processExcelFile jsParse now gen sheets).data = [] ∧
    (processExcelFile jsParse now gen sheets).errors = [] := by
  rcases runRows_nodata (vocScan jsParse sheets) now _ (dataStartRowOf rawData)
      initState hnodata with ⟨st', hrun, hmap, herr⟩
  have hloop : ingestLoop jsParse now sheets = some (.ok st') := by
    simp only [ingestLoop, hsheet, Option.map_some']
    rw [hrun]
  have hmap' : st'.personnelMap = [] := hmap
  have herr' : st'.errors = [] := herr
  simp only [processExcelFile, hloop, hmap', herr', postPass, List.map_nil]
  exact ⟨trivial, trivial, trivial⟩

/-- The category/shape agreement as a proposition. -/
def shapeP (p : Person) : Prop :=
  (p.category = "Regular" ∧ p.workYear.isSome = true ∧ p.y1 = none ∧ p.y2 = none) ∨
    (p.category = "NSF" ∧ p.y1.isSome = true ∧ p.y2.isSome = true ∧ p.workYear = none)

/-- The boolean and propositional shape checks agree. -/
theorem shapeOKb_iff (p : Person) : shapeOKb p = true ↔ shapeP p := by
  simp [shapeOKb, shapeP]

/-- Shape agreement transfers along equality of the category and the
three blocks. -/
theorem shapeP_of_eq {p q : Person} (h : shapeP p) (hc : q.category = p.category)
    (h1 : q.y1 = p.y1) (h2 : q.y2 = p.y2) (hw : q.workYear = p.workYear) :
    shapeP q := by
  rcases h with ⟨a, b, c, d⟩ | ⟨a, b, c, d⟩
  · exact .inl ⟨hc.trans a, by rw [hw]; exact b, by rw [h1]; exact c, by rw [h2]; exact d⟩
  · exact .inr ⟨hc.trans a, by rw [h1]; exact b, by rw [h2]; exact c, by rw [hw]; exact d⟩

/-- A `data` classification names the row's rank and name cells. -/
theorem classifyRow_data_inv (row : List Value) (rank name : String)
    (h : classifyRow row = .data rank name) :
    rank = fieldStr row 1 ∧ name = fieldStr row 2 ∧ isDataRow row = true := by
  refine ⟨?_, ?_, by rw [isDataRow, h]⟩ <;>
  · simp only [classifyRow] at h
    split at h
    · exact RowClass.noConfusion h
    · split at h
      · exact RowClass.noConfusion h
      · split at h
        · exact RowClass.noConfusion h
        · split at h
          · exact RowClass.noConfusion h
          · injection h with h1 h2
            simp [h1, h2]

/-- The administrative updates keep all three assessment blocks. -/
theorem applyAdmin_blocks (cp rank pes service cat : String) (p : Person) :
    (applyAdmin cp rank pes service cat p).y1 = p.y1 ∧
    (applyAdmin cp rank pes service cat p).y2 = p.y2 ∧
    (applyAdmin cp rank pes service cat p).workYear = p.workYear := by
  simp only [applyAdmin]
  split_ifs <;> exact ⟨rfl, rfl, rfl⟩

/-- When the stored category already equals the row's derived category,
the administrative updates leave the category at that value. -/
theorem applyAdmin_category_stable (cp rank pes service cat : String) (p : Person)
    (h : p.category = cat) :
    (applyAdmin cp rank pes service cat p).category = cat := by
  simp only [applyAdmin]
  split_ifs <;> first | rfl | exact h

/-- The `VOC` join keeps the category and all three assessment blocks. -/
theorem applyVocJoin_shape (maps : OrdMaps) (key : String) (p : Person) :
    (applyVocJoin maps key p).category = p.category ∧
    (applyVocJoin maps key p).y1 = p.y1 ∧
    (applyVocJoin maps key p).y2 = p.y2 ∧
    (applyVocJoin maps key p).workYear = p.workYear := by
  simp only [applyVocJoin]
  repeat' split
  all_goals exact ⟨rfl, rfl, rfl, rfl⟩

/-- `rowPersonPre` unfolded on an existing record. -/
theorem rowPersonPre_lookup_some (maps : OrdMaps) (now : NDate) (st : LoopState)
    (rank name : String) (row : List Value) (p : Person)
    (hf : mapLookup st.personnelMap (sanitizePersonnelName name) = some p) :
    rowPersonPre maps now st rank name row =
      (if (applyAdmin st.currentPlatoon rank (fieldStr row 3) (fieldStr row 4)
            (rowServiceCat row) p).category = "NSF" then
        applyVocJoin maps (sanitizePersonnelName name)
          (applyAdmin st.currentPlatoon rank (fieldStr row 3) (fieldStr row 4)
            (rowServiceCat row) p)
      else
        applyAdmin st.currentPlatoon rank (fieldStr row 3) (fieldStr row 4)
          (rowServiceCat row) p) := by
  simp only [rowPersonPre, rowServiceCat, hf]

/-- `rowPersonPre` unfolded on a first sighting. -/
theorem rowPersonPre_lookup_none (maps : OrdMaps) (now : NDate) (st : LoopState)
    (rank name : String) (row : List Value)
    (hf : mapLookup st.personnelMap (sanitizePersonnelName name) = none) :
    rowPersonPre maps now st rank name row =
      (if (applyAdmin st.currentPlatoon rank (fieldStr row 3) (fieldStr row 4)
            (rowServiceCat row)
            (mkBaseRecord (sanitizePersonnelName name) (rowServiceCat row)
              (if st.currentPlatoon ≠ "" then st.currentPlatoon else "Unassigned")
              rank (fieldStr row 3) now)).category = "NSF" then
        applyVocJoin maps (sanitizePersonnelName name)
          (applyAdmin st.currentPlatoon rank (fieldStr row 3) (fieldStr row 4)
            (rowServiceCat row)
            (mkBaseRecord (sanitizePersonnelName name) (rowServiceCat row)
              (if st.currentPlatoon ≠ "" then st.currentPlatoon else "Unassigned")
              rank (fieldStr row 3) now))
      else
        applyAdmin st.currentPlatoon rank (fieldStr row 3) (fieldStr row 4)
          (rowServiceCat row)
          (mkBaseRecord (sanitizePersonnelName name) (rowServiceCat row)
            (if st.currentPlatoon ≠ "" then st.currentPlatoon else "Unassigned")
            rank (fieldStr row 3) now)) := by
  simp only [rowPersonPre, rowServiceCat, hf]

/-- A fresh base record built from a row's derived category is
well-shaped. -/
theorem mkBaseRecord_shape (key platoon rank pes : String) (now : NDate)
    (row : List Value) :
    shapeP (mkBaseRecord key (rowServiceCat row) platoon rank pes now) := by
  rw [rowServiceCat]
  split
  · exact .inl ⟨rfl, rfl, rfl, rfl⟩
  · exact .inr ⟨rfl, rfl, rfl, rfl⟩

/-- The post-pass keeps the category and all three assessment blocks. -/
theorem validateAndClean_shape (gen : NDate) (q : Person) (ws : List String) :
    ((validateAndCleanPersonnelRecord gen q ws).1).category = q.category ∧
    ((validateAndCleanPersonnelRecord gen q ws).1).y1 = q.y1 ∧
    ((validateAndCleanPersonnelRecord gen q ws).1).y2 = q.y2 ∧
    ((validateAndCleanPersonnelRecord gen q ws).1).workYear = q.workYear := by
  simp only [validateAndCleanPersonnelRecord]
  repeat' split
  all_goals exact ⟨rfl, rfl, rfl, rfl⟩

/-- The record-map invariant of a consistent run: every stored record is
well-shaped, and its category agrees with the derived category of every
remaining data row that shares its key. -/
def mapConsInv (l : List (List Value)) (m : List (String × Person)) : Prop :=
  ∀ kp ∈ m, shapeP kp.2 ∧
    ∀ r ∈ l, isDataRow r = true → rowNameKey r = kp.1 →
      rowServiceCat r = kp.2.category

/-- One data row of a category-consistent sheet succeeds and preserves
the invariant. -/
theorem processDataRow_consistent (maps : OrdMaps) (now : NDate) (st : LoopState)
    (rank name : String) (row : List Value) (rest : List (List Value))
    (hcons : consistentRows (row :: rest))
    (hinv : mapConsInv (row :: rest) st.personnelMap)
    (hcl : classifyRow row = .data rank name) :
    ∃ st', processDataRow maps now st rank name row = .ok st' ∧
      mapConsInv rest st'.personnelMap := by
  obtain ⟨hrank, hname, hdata⟩ := classifyRow_data_inv row rank name hcl
  have hkey : rowNameKey row = sanitizePersonnelName name := by
    rw [rowNameKey, hname]
  have hpre : shapeP (rowPersonPre maps now st rank name row) ∧
      (rowPersonPre maps now st rank name row).category = rowServiceCat row := by
    cases hf : mapLookup st.personnelMap (sanitizePersonnelName name) with
    | some p =>
      have hmem := hinv (sanitizePersonnelName name, p) (mapLookup_mem _ _ _ hf)
      have hcatp : rowServiceCat row = p.category :=
        hmem.2 row (List.mem_cons_self _ _) hdata hkey
      rw [rowPersonPre_lookup_some maps now st rank name row p hf]
      have hstable := applyAdmin_category_stable st.currentPlatoon rank (fieldStr row 3)
        (fieldStr row 4) (rowServiceCat row) p hcatp.symm
      have hblocks := applyAdmin_blocks st.currentPlatoon rank (fieldStr row 3)
        (fieldStr row 4) (rowServiceCat row) p
      have hshape1 : shapeP (applyAdmin st.currentPlatoon rank (fieldStr row 3)
          (fieldStr row 4) (rowServiceCat row) p) :=
        shapeP_of_eq hmem.1 (hstable.trans hcatp) hblocks.1 hblocks.2.1 hblocks.2.2
      constructor
      · split
        · exact shapeP_of_eq hshape1 (applyVocJoin_shape _ _ _).1
            (applyVocJoin_shape _ _ _).2.1 (applyVocJoin_shape _ _ _).2.2.1
            (applyVocJoin_shape _ _ _).2.2.2
        · exact hshape1
      · split
        · exact (applyVocJoin_shape _ _ _).1.trans hstable
        · exact hstable
    | none =>
      rw [rowPersonPre_lookup_none maps now st rank name row hf]
      generalize (if st.currentPlatoon ≠ "" then st.currentPlatoon else "Unassigned") = pl
      have hshape0 := mkBaseRecord_shape (sanitizePersonnelName name) pl
        rank (fieldStr row 3) now row
      have hstable := applyAdmin_category_stable st.currentPlatoon rank (fieldStr row 3)
        (fieldStr row 4) (rowServiceCat row)
        (mkBaseRecord (sanitizePersonnelName name) (rowServiceCat row) pl
          rank (fieldStr row 3) now) rfl
      have hblocks := applyAdmin_blocks st.currentPlatoon rank (fieldStr row 3)
        (fieldStr row 4) (rowServiceCat row)
        (mkBaseRecord (sanitizePersonnelName name) (rowServiceCat row) pl
          rank (fieldStr row 3) now)
      have hshape1 : shapeP (applyAdmin st.currentPlatoon rank (fieldStr row 3)
          (fieldStr row 4) (rowServiceCat row)
          (mkBaseRecord (sanitizePersonnelName name) (rowServiceCat row) pl
            rank (fieldStr row 3) now)) :=
        shapeP_of_eq hshape0 hstable hblocks.1 hblocks.2.1 hblocks.2.2
      constructor
      · split
        · exact shapeP_of_eq hshape1 (applyVocJoin_shape _ _ _).1
            (applyVocJoin_shape _ _ _).2.1 (applyVocJoin_shape _ _ _).2.2.1
            (applyVocJoin_shape _ _ _).2.2.2
        · exact hshape1
      · split
        · exact (applyVocJoin_shape _ _ _).1.trans hstable
        · exact hstable
  rcases hpre with ⟨hshape, hcat2⟩
  have hassign : ∃ p3, assignResults (extractCols row)
        (rowPersonPre maps now st rank name row) = .ok p3 ∧
      shapeP p3 ∧ p3.category = rowServiceCat row := by
    rcases hshape with ⟨hR, hw, hy1, hy2⟩ | ⟨hN, h1s, h2s, hwn⟩
    · obtain ⟨w, hw'⟩ := Option.isSome_iff_exists.mp hw
      refine ⟨_, assignResults_regular _ _ w hR hw', .inl ⟨hR, rfl, hy1, hy2⟩, hcat2⟩
    · have hNR : (rowPersonPre maps now st rank name row).category ≠ "Regular" := by
        rw [hN]; decide
      obtain ⟨b1, hb1⟩ := Option.isSome_iff_exists.mp h1s
      obtain ⟨b2, hb2⟩ := Option.isSome_iff_exists.mp h2s
      refine ⟨_, assignResults_nsf _ _ b1 b2 hNR hb1 hb2, .inr ⟨hN, rfl, rfl, hwn⟩, hcat2⟩
  rcases hassign with ⟨p3, hok, hshape3, hcat3⟩
  refine ⟨{ st with
      personnelMap := mapSet st.personnelMap (sanitizePersonnelName name) p3,
      processed := st.processed + 1,
      personnelCount :=
        if (mapLookup st.personnelMap (sanitizePersonnelName name)).isSome then
          st.personnelCount
        else st.personnelCount + 1 }, ?_, ?_⟩
  · simp only [processDataRow, hok]
  · intro kp hkp
    rcases mem_mapSet _ _ _ _ hkp with hkp | hkp
    · have hold := hinv kp hkp
      exact ⟨hold.1, fun r hr hd hk => hold.2 r (List.mem_cons_of_mem _ hr) hd hk⟩
    · subst hkp
      refine ⟨hshape3, fun r hr hd hk => ?_⟩
      rw [hcat3]
      exact hcons r (List.mem_cons_of_mem _ hr) row (List.mem_cons_self _ _) hd hdata
        (by rw [hk, ← hkey])

/-- The row loop of a category-consistent sheet always succeeds, and
every stored record of the final state is well-shaped. -/
theorem runRows_consistent (maps : OrdMaps) (now : NDate) :
    ∀ (l : List (List Value)) (i : Nat) (st : LoopState),
      consistentRows l → mapConsInv l st.personnelMap →
      ∃ st', runRows maps now i l st = .ok st' ∧
        ∀ kp ∈ st'.personnelMap, shapeP kp.2 := by
  intro l
  induction l with
  | nil =>
    intro i st _ hinv
    exact ⟨st, rfl, fun kp hkp => (hinv kp hkp).1⟩
  | cons row rest ih =>
    intro i st hcons hinv
    have hconsr : consistentRows rest := fun r1 h1 r2 h2 =>
      hcons r1 (List.mem_cons_of_mem _ h1) r2 (List.mem_cons_of_mem _ h2)
    have hinvr : ∀ m, mapConsInv (row :: rest) m → mapConsInv rest m :=
      fun m hm kp hkp =>
        ⟨(hm kp hkp).1, fun r hr => (hm kp hkp).2 r (List.mem_cons_of_mem _ hr)⟩
    rcases hcl : classifyRow row with _ | u | raw | _ | ⟨rank, name⟩
    · rcases ih (i + 1) { st with skippedRows := st.skippedRows + 1 } hconsr
        (hinvr _ hinv) with ⟨st', hrun, hsh⟩
      exact ⟨st', by simp only [runRows, processRow, hcl]; exact hrun, hsh⟩
    · rcases ih (i + 1) { st with currentPlatoon := u } hconsr
        (hinvr _ hinv) with ⟨st', hrun, hsh⟩
      exact ⟨st', by simp only [runRows, processRow, hcl]; exact hrun, hsh⟩
    · rcases ih (i + 1)
        { st with warnings := st.warnings ++ [ambiguousHeaderMsg i raw] } hconsr
        (hinvr _ hinv) with ⟨st', hrun, hsh⟩
      exact ⟨st', by simp only [runRows, processRow, hcl]; exact hrun, hsh⟩
    · rcases ih (i + 1)
        { st with warnings := st.warnings ++ [missingNameRankMsg i],
                  skippedRows := st.skippedRows + 1 } hconsr
        (hinvr _ hinv) with ⟨st', hrun, hsh⟩
      exact ⟨st', by simp only [runRows, processRow, hcl]; exact hrun, hsh⟩
    · rcases processDataRow_consistent maps now st rank name row rest hcons hinv hcl
        with ⟨st1, hok, hinv1⟩
      rcases ih (i + 1) st1 hconsr hinv1 with ⟨st', hrun, hsh⟩
      exact ⟨st', by simp only [runRows, processRow, hcl, hok]; exact hrun, hsh⟩

/-- C1 (amended): the ingestion completes (`success = true`) for every
workbook whose primary sheet is present and in which all data rows that
share a normalized name derive the same category; without that proviso
a later row can recategorize an existing record and a result written in
the new category's columns rejects the whole ingestion, so the
rejecting branch is reachable beyond the missing-sheet case. -/
theorem c1_ingestion_total_amended (jsParse : String → Option NDate)
    (now gen : NDate) (sheets : List (String × List (List Value)))
    (rawData : List (List Value))
    (hsheet : findSheetNamed "all in one view" sheets = some rawData)
    (hcons : consistentRows (rawData.drop (dataStartRowOf rawData))) :
    (processExcelFile jsParse now gen sheets).success = true := by
  rcases runRows_consistent (vocScan jsParse sheets) now _ (dataStartRowOf rawData)
      initState hcons (fun kp hkp => absurd hkp (List.not_mem_nil kp)) with
    ⟨st', hrun, _⟩
  have hloop : ingestLoop jsParse now sheets = some (.ok st') := by
    simp only [ingestLoop, hsheet, Option.map_some']
    rw [hrun]
  simp only [processExcelFile, hloop]

/-- C3 (amended): assessment-block shape matches the record's category
for every output record of a workbook in which all data rows sharing a
normalized name derive the same category (the shape is fixed at record
creation, so a later category flip — excluded by the proviso — is the
one way to a mismatched record). -/
theorem c3_shape_amended (jsParse : String → Option NDate) (now gen : NDate)
    (sheets : List (String × List (List Value))) (rawData : List (List Value))
    (p : Person)
    (hsheet : findSheetNamed "all in one view" sheets = some rawData)
    (hcons : consistentRows (rawData.drop (dataStartRowOf rawData)))
    (hp : p ∈ (processExcelFile jsParse now gen sheets).data) :
    shapeOKb p = true := by
  rcases runRows_consistent (vocScan jsParse sheets) now _ (dataStartRowOf rawData)
      initState hcons (fun kp hkp => absurd hkp (List.not_mem_nil kp)) with
    ⟨st', hrun, hsh⟩
  have hloop : ingestLoop jsParse now sheets = some (.ok st') := by
    simp only [ingestLoop, hsheet, Option.map_some']
    rw [hrun]
  simp only [processExcelFile, hloop] at hp
  rcases postPass_mem _ _ _ _ hp with ⟨q, hqmem, ws', hq⟩
  subst hq
  rcases List.mem_map.mp hqmem with ⟨kp, hkp, hkq⟩
  subst hkq
  have hv := validateAndClean_shape gen kp.2 ws'
  rw [shapeOKb_iff]
  exact shapeP_of_eq (hsh kp hkp) hv.1 hv.2.1 hv.2.2.1 hv.2.2.2

/-- Erasing the timestamp leaves the category unchanged. -/
theorem eraseTs_category (q : Person) : (eraseTs q).category = q.category := rfl

/-- Erasing the timestamp of a fresh base record forgets exactly the
creation time. -/
theorem eraseTs_mkBaseRecord (key cat platoon rank pes : String) (now : NDate) :
    eraseTs (mkBaseRecord key cat platoon rank pes now) =
      mkBaseRecord key cat platoon rank pes ⟨0, 0, 0⟩ := rfl

/-- The administrative updates commute with timestamp erasure. -/
theorem eraseTs_applyAdmin (cp rank pes service cat : String) (p : Person) :
    eraseTs (applyAdmin cp rank pes service cat p) =
      applyAdmin cp rank pes service cat (eraseTs p) := by
  cases p
  simp only [applyAdmin, eraseTs]
  split_ifs <;> rfl

/-- The `VOC` join commutes with timestamp erasure. -/
theorem eraseTs_applyVocJoin (maps : OrdMaps) (key : String) (p : Person) :
    eraseTs (applyVocJoin maps key p) = applyVocJoin maps key (eraseTs p) := by
  cases p
  simp only [applyVocJoin, eraseTs]
  cases mapLookup maps.ord key <;> cases mapLookup maps.y1w key <;>
    cases mapLookup maps.y2w key <;> (try split_ifs) <;> rfl

/-- The slot writers commute with timestamp erasure. -/
theorem setWY_eraseTs (n : String) (f : WorkYearBlock → WorkYearBlock) (p : Person) :
    setWY n f (eraseTs p) = Except.map eraseTs (setWY n f p) := by
  rcases p with ⟨nm, cat, pl, un, rk, pe, lu, od, io, ms, rt, y1f, y2f, wyf, w1, w2⟩
  cases wyf <;> rfl

theorem setY1_eraseTs (n : String) (f : Y1Block → Y1Block) (p : Person) :
    setY1 n f (eraseTs p) = Except.map eraseTs (setY1 n f p) := by
  rcases p with ⟨nm, cat, pl, un, rk, pe, lu, od, io, ms, rt, y1f, y2f, wyf, w1, w2⟩
  cases y1f <;> rfl

theorem setY2_eraseTs (n : String) (f : Y2Block → Y2Block) (p : Person) :
    setY2 n f (eraseTs p) = Except.map eraseTs (setY2 n f p) := by
  rcases p with ⟨nm, cat, pl, un, rk, pe, lu, od, io, ms, rt, y1f, y2f, wyf, w1, w2⟩
  cases y2f <;> rfl

theorem condSet_eraseTs (c : String) (setter : Person → Except String Person)
    (hs : ∀ p, setter (eraseTs p) = Except.map eraseTs (setter p)) (p : Person) :
    condSet c setter (eraseTs p) = Except.map eraseTs (condSet c setter p) := by
  simp only [condSet]
  split_ifs
  · exact hs p
  · rfl

theorem exThen_eraseTs (x : Except String Person)
    (f g : Person → Except String Person)
    (hfg : ∀ p, g (eraseTs p) = Except.map eraseTs (f p)) :
    exThen (Except.map eraseTs x) g = Except.map eraseTs (exThen x f) := by
  cases x with
  | error e => rfl
  | ok p => exact hfg p

/-- The result writes commute with timestamp erasure: erased input gives
the erased outcome (same error, or the erased record). -/
theorem assignResults_eraseTs (cols : ResultCols) (p : Person) :
    assignResults cols (eraseTs p) = Except.map eraseTs (assignResults cols p) := by
  have hcat : (eraseTs p).category = p.category := rfl
  simp only [assignResults, hcat]
  split_ifs
  · rw [condSet_eraseTs _ _ (setWY_eraseTs _ _) p]
    refine exThen_eraseTs _ _ _ fun p1 => ?_
    rw [condSet_eraseTs _ _ (setWY_eraseTs _ _) p1]
    refine exThen_eraseTs _ _ _ fun p2 => ?_
    rw [condSet_eraseTs _ _ (setWY_eraseTs _ _) p2]
    refine exThen_eraseTs _ _ _ fun p3 => ?_
    exact condSet_eraseTs _ _ (setWY_eraseTs _ _) p3
  · rw [condSet_eraseTs _ _ (setY1_eraseTs _ _) p]
    refine exThen_eraseTs _ _ _ fun p1 => ?_
    rw [condSet_eraseTs _ _ (setY1_eraseTs _ _) p1]
    refine exThen_eraseTs _ _ _ fun p2 => ?_
    rw [condSet_eraseTs _ _ (setY1_eraseTs _ _) p2]
    refine exThen_eraseTs _ _ _ fun p3 => ?_
    rw [condSet_eraseTs _ _ (setY2_eraseTs _ _) p3]
    refine exThen_eraseTs _ _ _ fun p4 => ?_
    rw [condSet_eraseTs _ _ (setY2_eraseTs _ _) p4]
    refine exThen_eraseTs _ _ _ fun p5 => ?_
    exact condSet_eraseTs _ _ (setY2_eraseTs _ _) p5

/-- The map-level timestamp erasure. -/
def mapErase (m : List (String × Person)) : List (String × Person) :=
  m.map (fun kp => (kp.1, eraseTs kp.2))

theorem mapErase_lookup (m : List (String × Person)) (k : String) :
    mapLookup (mapErase m) k = (mapLookup m k).map eraseTs := by
  induction m with
  | nil => rfl
  | cons kp rest ih =>
    rcases kp with ⟨k', v⟩
    simp only [mapErase, List.map_cons, mapLookup]
    split_ifs <;> simp_all [mapErase]

theorem mapErase_mapSet (m : List (String × Person)) (k : String) (p : Person) :
    mapErase (mapSet m k p) = mapSet (mapErase m) k (eraseTs p) := by
  induction m with
  | nil => rfl
  | cons kp rest ih =>
    rcases kp with ⟨k', v⟩
    simp only [mapErase, List.map_cons, mapSet]
    split_ifs <;> simp_all [mapErase]

/-- The composition of the administrative updates and the `VOC` join. -/
def postUpsert (maps : OrdMaps) (key cp rank pes service cat : String)
    (p : Person) : Person :=
  let p1 := applyAdmin cp rank pes service cat p
  if p1.category = "NSF" then applyVocJoin maps key p1 else p1

theorem postUpsert_eraseTs (maps : OrdMaps) (key cp rank pes service cat : String)
    (p : Person) :
    eraseTs (postUpsert maps key cp rank pes service cat p) =
      postUpsert maps key cp rank pes service cat (eraseTs p) := by
  simp only [postUpsert]
  rw [← eraseTs_applyAdmin, eraseTs_category]
  split
  · rw [← eraseTs_applyVocJoin]
  · rfl

/-- `rowPersonPre` as the composition applied to the looked-up or fresh
record. -/
theorem rowPersonPre_eq_postUpsert (maps : OrdMaps) (now : NDate) (st : LoopState)
    (rank name : String) (row : List Value) :
    rowPersonPre maps now st rank name row =
      postUpsert maps (sanitizePersonnelName name) st.currentPlatoon rank
        (fieldStr row 3) (fieldStr row 4) (rowServiceCat row)
        (match mapLookup st.personnelMap (sanitizePersonnelName name) with
         | some p => p
         | none => mkBaseRecord (sanitizePersonnelName name) (rowServiceCat row)
             (if st.currentPlatoon ≠ "" then st.currentPlatoon else "Unassigned")
             rank (fieldStr row 3) now) := by
  simp only [rowPersonPre, postUpsert, rowServiceCat]

/-- The pre-assignment record of a data row is, up to timestamp erasure,
independent of the wall clock and determined by the erased map and the
ambient unit. -/
theorem rowPersonPre_erase (maps : OrdMaps) (now1 now2 : NDate)
    (st1 st2 : LoopState) (rank name : String) (row : List Value)
    (hm : mapErase st1.personnelMap = mapErase st2.personnelMap)
    (hc : st1.currentPlatoon = st2.currentPlatoon) :
    eraseTs (rowPersonPre maps now1 st1 rank name row) =
      eraseTs (rowPersonPre maps now2 st2 rank name row) := by
  have hl : (mapLookup st1.personnelMap (sanitizePersonnelName name)).map eraseTs =
      (mapLookup st2.personnelMap (sanitizePersonnelName name)).map eraseTs := by
    rw [← mapErase_lookup, ← mapErase_lookup, hm]
  rw [rowPersonPre_eq_postUpsert, rowPersonPre_eq_postUpsert,
    postUpsert_eraseTs, postUpsert_eraseTs, hc]
  congr 1
  cases hf1 : mapLookup st1.personnelMap (sanitizePersonnelName name) with
  | none =>
    cases hf2 : mapLookup st2.personnelMap (sanitizePersonnelName name) with
    | none =>
      rw [eraseTs_mkBaseRecord, eraseTs_mkBaseRecord]
    | some p2 =>
      rw [hf1, hf2] at hl
      exact Option.noConfusion hl
  | some p1 =>
    cases hf2 : mapLookup st2.personnelMap (sanitizePersonnelName name) with
    | none =>
      rw [hf1, hf2] at hl
      exact Option.noConfusion hl
    | some p2 =>
      rw [hf1, hf2] at hl
      simp only [Option.map_some'] at hl
      injection hl

/-- Erase all record timestamps of a loop state. -/
def stErase (st : LoopState) : LoopState :=
  { st with personnelMap := mapErase st.personnelMap }

/-- Outcome relation of two runs: same error, or states equal after
timestamp erasure. -/
def exRel : Except String LoopState → Except String LoopState → Prop
  | .error e1, .error e2 => e1 = e2
  | .ok s1, .ok s2 => stErase s1 = stErase s2
  | _, _ => False

/-- One loop iteration, run at two wall-clock instants from states equal
up to timestamps, yields related outcomes. -/
theorem processRow_erase (maps : OrdMaps) (now1 now2 : NDate) (i : Nat)
    (row : List Value) (st1 st2 : LoopState) (h : stErase st1 = stErase st2) :
    exRel (processRow maps now1 st1 i row) (processRow maps now2 st2 i row) := by
  have hpre := rowPersonPre_erase maps now1 now2 st1 st2
  rcases st1 with ⟨m1, w1, e1, c1, pr1, pc1, sk1⟩
  rcases st2 with ⟨m2, w1, e1, c1, pr1, pc1, sk1⟩
  simp only [stErase, LoopState.mk.injEq] at h
  obtain ⟨hm, hw, he, hc, hpr, hpc, hsk⟩ := h
  subst hw; subst he; subst hc; subst hpr; subst hpc; subst hsk
  rcases hcl : classifyRow row with _ | u | raw | _ | ⟨rank, name⟩ <;>
    simp only [processRow, hcl]
  · simp only [exRel, stErase, LoopState.mk.injEq]
    exact ⟨hm, trivial, trivial, trivial, trivial, trivial, trivial⟩
  · simp only [exRel, stErase, LoopState.mk.injEq]
    exact ⟨hm, trivial, trivial, trivial, trivial, trivial, trivial⟩
  · simp only [exRel, stErase, LoopState.mk.injEq]
    exact ⟨hm, trivial, trivial, trivial, trivial, trivial, trivial⟩
  · simp only [exRel, stErase, LoopState.mk.injEq]
    exact ⟨hm, trivial, trivial, trivial, trivial, trivial, trivial⟩
  · have hpre' := hpre rank name row hm rfl
    have hassign :
        Except.map eraseTs (assignResults (extractCols row)
          (rowPersonPre maps now1 ⟨m1, w1, e1, c1, pr1, pc1, sk1⟩ rank name row)) =
        Except.map eraseTs (assignResults (extractCols row)
          (rowPersonPre maps now2 ⟨m2, w1, e1, c1, pr1, pc1, sk1⟩ rank name row)) := by
      rw [← assignResults_eraseTs, ← assignResults_eraseTs, hpre']
    have hsome : (mapLookup m1 (sanitizePersonnelName name)).isSome =
        (mapLookup m2 (sanitizePersonnelName name)).isSome := by
      have := congrArg Option.isSome
        (by rw [← mapErase_lookup, ← mapErase_lookup, hm] :
          (mapLookup m1 (sanitizePersonnelName name)).map eraseTs =
            (mapLookup m2 (sanitizePersonnelName name)).map eraseTs)
      simpa [Option.isSome_map] using this
    simp only [processDataRow]
    cases h1 : assignResults (extractCols row)
        (rowPersonPre maps now1 ⟨m1, w1, e1, c1, pr1, pc1, sk1⟩ rank name row) with
    | error er1 =>
      cases h2 : assignResults (extractCols row)
          (rowPersonPre maps now2 ⟨m2, w1, e1, c1, pr1, pc1, sk1⟩ rank name row) with
      | error er2 =>
        rw [h1, h2] at hassign
        simp only [Except.map] at hassign
        simp only [exRel]
        injection hassign
      | ok q2 =>
        rw [h1, h2] at hassign
        simp only [Except.map] at hassign
        exact Except.noConfusion hassign
    | ok q1 =>
      cases h2 : assignResults (extractCols row)
          (rowPersonPre maps now2 ⟨m2, w1, e1, c1, pr1, pc1, sk1⟩ rank name row) with
      | error er2 =>
        rw [h1, h2] at hassign
        simp only [Except.map] at hassign
        exact Except.noConfusion hassign
      | ok q2 =>
        rw [h1, h2] at hassign
        simp only [Except.map] at hassign
        have hq : eraseTs q1 = eraseTs q2 := by injection hassign
        simp only [exRel, stErase, LoopState.mk.injEq]
        refine ⟨?_, trivial, trivial, trivial, trivial, by rw [hsome], trivial⟩
        rw [mapErase_mapSet, mapErase_mapSet, hm, hq]

/-- The whole row loop, run at two wall-clock instants from states equal
up to timestamps, yields related outcomes. -/
theorem runRows_erase (maps : OrdMaps) (now1 now2 : NDate) :
    ∀ (l : List (List Value)) (i : Nat) (st1 st2 : LoopState),
      stErase st1 = stErase st2 →
      exRel (runRows maps now1 i l st1) (runRows maps now2 i l st2) := by
  intro l
  induction l with
  | nil =>
    intro i st1 st2 h
    exact h
  | cons row rest ih =>
    intro i st1 st2 h
    have hr := processRow_erase maps now1 now2 i row st1 st2 h
    simp only [runRows]
    cases h1 : processRow maps now1 st1 i row with
    | error e1 =>
      cases h2 : processRow maps now2 st2 i row with
      | error e2 =>
        rw [h1, h2] at hr
        exact hr
      | ok s2 =>
        rw [h1, h2] at hr
        exact absurd hr (by simp [exRel])
    | ok s1 =>
      cases h2 : processRow maps now2 st2 i row with
      | error e2 =>
        rw [h1, h2] at hr
        exact absurd hr (by simp [exRel])
      | ok s2 =>
        rw [h1, h2] at hr
        exact ih (i + 1) s1 s2 hr

/-- The post-pass of a record whose ORD date passes the validity check
is, up to timestamp erasure, independent of the generated date and of
the warnings array. -/
theorem validateAndClean_erase (gen1 gen2 : NDate) (p1 p2 : Person)
    (ws1 ws2 : List String) (he : eraseTs p1 = eraseTs p2)
    (ho : ordOKb p1 = true) :
    eraseTs (validateAndCleanPersonnelRecord gen1 p1 ws1).1 =
      eraseTs (validateAndCleanPersonnelRecord gen2 p2 ws2).1 := by
  rcases p1 with ⟨nm, cat, pl, un, rk, pe, lu, od, io, ms, rt, y1f, y2f, wyf, wd1, wd2⟩
  rcases p2 with ⟨nm2, cat2, pl2, un2, rk2, pe2, lu2, od2, io2, ms2, rt2, y1f2, y2f2,
    wyf2, wd12, wd22⟩
  simp only [eraseTs, Person.mk.injEq] at he
  obtain ⟨e1, e2, e3, e4, e5, e6, _, e8, e9, e10, e11, e12, e13, e14, e15, e16⟩ := he
  subst e1; subst e2; subst e3; subst e4; subst e5; subst e6
  subst e8; subst e9; subst e10; subst e11; subst e12; subst e13
  subst e14; subst e15; subst e16
  simp only [ordOKb] at ho
  simp only [validateAndCleanPersonnelRecord]
  cases od with
  | none =>
    by_cases hp : isValidPlatoon pl <;>
      by_cases hmOK : listHas MEDICAL_STATUS_OPTIONS ms <;>
        simp [hp, hmOK, eraseTs]
  | some d =>
    have hv : validateDateInputAllowFuture d = true := ho
    by_cases hp : isValidPlatoon pl <;>
      by_cases hmOK : listHas MEDICAL_STATUS_OPTIONS ms <;>
        simp [hp, hmOK, hv, eraseTs]

/-- The post-pass over related record lists whose ORD dates are all
valid yields, up to timestamp erasure, the same records for any two
generator outcomes and warning arrays. -/
theorem postPass_erase (gen1 gen2 : NDate) :
    ∀ (ps1 ps2 : List Person) (ws1 ws2 : List String),
      ps1.map eraseTs = ps2.map eraseTs →
      (∀ p ∈ ps1, ordOKb p = true) →
      (postPass gen1 ps1 ws1).1.map eraseTs = (postPass gen2 ps2 ws2).1.map eraseTs := by
  intro ps1
  induction ps1 with
  | nil =>
    intro ps2 ws1 ws2 hmap _
    cases ps2 with
    | nil => rfl
    | cons q qs => exact absurd hmap (by simp)
  | cons p1 rest1 ih =>
    intro ps2 ws1 ws2 hmap hord
    cases ps2 with
    | nil => exact absurd hmap (by simp)
    | cons p2 rest2 =>
      simp only [List.map_cons, List.cons.injEq] at hmap
      simp only [postPass, List.map_cons, List.cons.injEq]
      exact ⟨validateAndClean_erase gen1 gen2 p1 p2 _ _ hmap.1
          (hord p1 (List.mem_cons_self _ _)),
        ih rest2 _ _ hmap.2 (fun p hp => hord p (List.mem_cons_of_mem _ hp))⟩

/-- Equal erased maps have the same records up to erasure. -/
theorem mapErase_values (m1 m2 : List (String × Person))
    (h : mapErase m1 = mapErase m2) :
    (m1.map (fun kp => kp.2)).map eraseTs = (m2.map (fun kp => kp.2)).map eraseTs := by
  have h2 := congrArg (List.map (fun kp : String × Person => kp.2)) h
  simpa [mapErase, List.map_map, Function.comp] using h2

/-- C9 (amended): as long as no stored record's ORD date fails the
post-pass validity check (the branch that consults the random
generator), the ingestion output is — up to the `lastUpdated`
timestamp — a deterministic function of the sheet contents: two runs at
different wall-clock instants and with different generator outcomes
produce identical record content.  When that branch does fire, the
output contains the freshly generated random date and re-ingestion can
differ. -/
theorem c9_deterministic_amended (jsParse : String → Option NDate)
    (sheets : List (String × List (List Value))) (now1 now2 gen1 gen2 : NDate)
    (H : ∀ st, ingestLoop jsParse now1 sheets = some (.ok st) →
      ∀ kp ∈ st.personnelMap, ordOKb kp.2 = true) :
    (processExcelFile jsParse now1 gen1 sheets).data.map eraseTs =
      (processExcelFile jsParse now2 gen2 sheets).data.map eraseTs := by
  cases hs : findSheetNamed "all in one view" sheets with
  | none =>
    simp [processExcelFile, ingestLoop, hs]
  | some rawData =>
    have hrel := runRows_erase (vocScan jsParse sheets) now1 now2
      (rawData.drop (dataStartRowOf rawData)) (dataStartRowOf rawData)
      initState initState rfl
    cases h1 : runRows (vocScan jsParse sheets) now1 (dataStartRowOf rawData)
        (rawData.drop (dataStartRowOf rawData)) initState with
    | error e1 =>
      cases h2 : runRows (vocScan jsParse sheets) now2 (dataStartRowOf rawData)
          (rawData.drop (dataStartRowOf rawData)) initState with
      | error e2 =>
        have hl1 : ingestLoop jsParse now1 sheets = some (.error e1) := by
          simp only [ingestLoop, hs, Option.map_some']
          rw [h1]
        have hl2 : ingestLoop jsParse now2 sheets = some (.error e2) := by
          simp only [ingestLoop, hs, Option.map_some']
          rw [h2]
        simp [processExcelFile, hl1, hl2]
      | ok st2 =>
        rw [h1, h2] at hrel
        exact absurd hrel (by simp [exRel])
    | ok st1 =>
      cases h2 : runRows (vocScan jsParse sheets) now2 (dataStartRowOf rawData)
          (rawData.drop (dataStartRowOf rawData)) initState with
      | error e2 =>
        rw [h1, h2] at hrel
        exact absurd hrel (by simp [exRel])
      | ok st2 =>
        rw [h1, h2] at hrel
        have hse : stErase st1 = stErase st2 := hrel
        have hl1 : ingestLoop jsParse now1 sheets = some (.ok st1) := by
          simp only [ingestLoop, hs, Option.map_some']
          rw [h1]
        have hl2 : ingestLoop jsParse now2 sheets = some (.ok st2) := by
          simp only [ingestLoop, hs, Option.map_some']
          rw [h2]
        simp only [processExcelFile, hl1, hl2]
        have hm : mapErase st1.personnelMap = mapErase st2.personnelMap :=
          congrArg LoopState.personnelMap hse
        refine postPass_erase gen1 gen2 _ _ _ _ (mapErase_values _ _ hm) ?_
        intro p hp
        rcases List.mem_map.mp hp with ⟨kp, hkp, hkq⟩
        exact hkq ▸ H st1 hl1 kp hkp

/-- Rows of a category-consistent workbook: one NSF and one Regular
person, each with one result. -/
def c1okRows : List (List Value) :=
  [[.str "", .str "SGT", .str "TAN", .str "A1", .str "NSF", .str "Gold"],
   [.str "", .str "SGT", .str "TAN", .str "A1", .str "NSF", .str "", .str "Pass"]]

/-- A category-consistent workbook for the C1 witness. -/
def c1okSheets : List (String × List (List Value)) :=
  [("All in one view", c1okRows)]

/-- Witness for the amended C1 at a concrete consistent workbook. -/
theorem c1_witness :
    (processExcelFile jsParseNone sampleNow sampleGen c1okSheets).success = true :=
  c1_ingestion_total_amended jsParseNone sampleNow sampleGen c1okSheets c1okRows
    rfl (by decide)

/-- Rows of a category-consistent workbook with one NSF and one Regular
record, for the C3 witness. -/
def c3okRows : List (List Value) :=
  [[.str "", .str "SGT", .str "TAN", .str "A1", .str "NSF", .str "Gold"],
   [.str "", .str "CPT", .str "LEE", .str "A1", .str "REG", .str "", .str "",
    .str "", .str "", .str "", .str "", .str "Gold"]]

/-- A category-consistent workbook for the C3 witness. -/
def c3okSheets : List (String × List (List Value)) :=
  [("All in one view", c3okRows)]

/-- Witness for the amended C3: on a concrete consistent workbook every
output record is well-shaped. -/
theorem c3_witness :
    (processExcelFile jsParseNone sampleNow sampleGen c3okSheets).data.all
      shapeOKb = true := by
  rw [List.all_eq_true]
  intro p hp
  exact c3_shape_amended jsParseNone sampleNow sampleGen c3okSheets c3okRows p
    rfl (by decide) hp

/-- The metadata-only rows behind `c5sheets`, named for the witness. -/
def c5rows : List (List Value) :=
  [[.str "SOFUN COMPANY IPPT TRACKING"], [.str "Updated:", .str "this year"]]

/-- Witness for the amended C5 at the concrete metadata-only workbook. -/
theorem c5_witness :
    (processExcelFile jsParseNone sampleNow sampleGen [("All in one view", c5rows)]).success = true ∧
    (processExcelFile jsParseNone sampleNow sampleGen [("All in one view", c5rows)]).data = [] ∧
    (processExcelFile jsParseNone sampleNow sampleGen [("All in one view", c5rows)]).errors = [] :=
  c5_empty_amended jsParseNone sampleNow sampleGen [("All in one view", c5rows)]
    c5rows rfl (by decide)

/-- A one-row workbook for the C6 witness. -/
def c6sheets : List (String × List (List Value)) :=
  [("All in one view", [[.str "", .str "SGT", .str "TAN", .str "", .str "NSF"]])]

/-- Witness for C6 at a concrete workbook: every output platoon lies in
the closed vocabulary. -/
theorem c6_witness :
    (processExcelFile jsParseNone sampleNow sampleGen c6sheets).data.all
      (fun p => decide (p.platoon ∈ VALID_PLATOONS)) = true := by
  rw [List.all_eq_true]
  intro p hp
  rw [decide_eq_true_eq]
  exact c6_unit_closure jsParseNone sampleNow sampleGen c6sheets p hp

/-- A one-row workbook for the C10 witness. -/
def c10sheets : List (String × List (List Value)) :=
  [("All in one view", [[.str "", .str "CPT", .str "LEE", .str "", .str "REG"]])]

/-- Witness for C10 at a concrete workbook: every output record has
medical status `Fit`. -/
theorem c10_witness :
    (processExcelFile jsParseNone sampleNow sampleGen c10sheets).data.all
      (fun p => decide (p.medicalStatus = "Fit")) = true := by
  rw [List.all_eq_true]
  intro p hp
  rw [decide_eq_true_eq]
  exact (c10_medical_fit jsParseNone sampleNow sampleGen c10sheets p hp).1

/-- The rows and workbook for the C9 witness (no `VOC` sheet, so no
ORD date is ever stored). -/
def c9okSheets : List (String × List (List Value)) :=
  [("All in one view", [[.str "", .str "SGT", .str "TAN", .str "", .str "NSF"]])]

/-- The record the C9-witness run stores for `TAN`. -/
def c9okPerson : Person :=
  { name := "TAN", category := "NSF", platoon := "Unassigned", unit := "Unassigned",
    rank := "SGT", pes := "", lastUpdated := sampleNow, ordDate := none,
    isORD := false, medicalStatus := "Fit", remedialTraining := [],
    y1 := some emptyY1, y2 := some emptyY2, workYear := none,
    y1WindowEndDate := none, y2WindowEndDate := none }

/-- The loop state the C9-witness run reaches. -/
def c9okState : LoopState :=
  { personnelMap := [("TAN", c9okPerson)], warnings := [], errors := [],
    currentPlatoon := "", processed := 1, personnelCount := 1, skippedRows := 0 }

/-- Witness for the amended C9: two runs of a concrete workbook, at
different clock instants and generator outcomes, agree up to
timestamps. -/
theorem c9_witness :
    (processExcelFile jsParseNone sampleNow ⟨2026, 1, 1⟩ c9okSheets).data.map eraseTs =
      (processExcelFile jsParseNone ⟨2025, 7, 2⟩ ⟨2026, 2, 2⟩ c9okSheets).data.map
        eraseTs := by
  refine c9_deterministic_amended jsParseNone c9okSheets sampleNow ⟨2025, 7, 2⟩
    ⟨2026, 1, 1⟩ ⟨2026, 2, 2⟩ ?_
  intro st h kp hkp
  have h' : ingestLoop jsParseNone sampleNow c9okSheets = some (.ok c9okState) := rfl
  rw [h'] at h
  injection h with h
  injection h with h
  subst h
  simp only [c9okState, List.mem_singleton] at hkp
  subst hkp
  decide
